import Mathlib

/-!
# User CRUD API (`users_crud_api.js`): record store and field validators

A shallow embedding of the request handlers of `users_crud_api.js` and of the
validators they call.

* Request values are the values `express.json()` can hand to a handler
  (`JVal`), plus `undefined` for an absent property.
* The `users` map is an insertion-ordered association list.
* A handler is a function from the map before the request to the response and
  the map after it.  A `TypeError` raised inside the handler's `try` block is
  an explicit `Except` error that the handler turns into the 500 response,
  keeping whatever had been written to the map before the throw.
* `uuidv4()` and `new Date().toISOString()` are inputs of the handlers.
* `Number::toString` is an input (`fmt`) of everything that converts a
  value to a string: all that is used of it is that the text of a number has
  no `@` in it.
* Strings are sequences of Unicode scalar values. `String.prototype.toLowerCase`
  is an input (`cm`) of everything that lower-cases: all that is used of it is
  that it is idempotent and rewrites a string character by character without
  making or removing white space, `@` or `.`.
-/

namespace UsersCrud

/-! ## Values -/

/-- A value found in a parsed JSON body, or `undefined` for an absent property.
`num` holds a finite number. -/
inductive JVal where
  | undefined : JVal
  | null : JVal
  | bool (b : Bool) : JVal
  | num (q : ℚ) : JVal
  | str (s : String) : JVal
  | arr (elems : List JVal) : JVal
  | obj (fields : List (String × JVal)) : JVal

/-- The conversion `Number::toString`, left open but for one fact: the text of a
number (digits, `.`, `-`, `+`, `e`, `Infinity`) has no `@`. -/
structure NumberFormat where
  text : ℚ → String
  noAt : ∀ q, '@' ∉ (text q).data

/-- A number format for evaluating the handlers on requests in which no number
is converted to text. -/
def plainFormat : NumberFormat :=
  { text := fun _ => "0", noAt := fun _ => by simp }

/-- The single fault the handlers can raise: a `TypeError`. -/
inductive Fault where
  | typeError : Fault
  deriving DecidableEq, Repr

/-- Property read `o.key` on a plain object: the first binding of `key`, or
`undefined`. -/
def getProp : List (String × JVal) → String → JVal
  | [], _ => JVal.undefined
  | (k, v) :: rest, key => if k = key then v else getProp rest key

/-- Whether an object literal has an own property `key`. -/
def hasOwn : List (String × JVal) → String → Bool
  | [], _ => false
  | (k, _) :: rest, key => if k = key then true else hasOwn rest key

/-- The test `v === undefined`. -/
def isUndefined : JVal → Bool
  | JVal.undefined => true
  | _ => false

/-- JavaScript truthiness (`ToBoolean`). -/
def truthy : JVal → Bool
  | JVal.undefined => false
  | JVal.null => false
  | JVal.bool b => b
  | JVal.num q => decide (q ≠ 0)
  | JVal.str s => decide (s ≠ "")
  | JVal.arr _ => true
  | JVal.obj _ => true

/-- Joins already converted array elements with commas (`Array.prototype.join`). -/
def joinComma : List String → String
  | [] => ""
  | [s] => s
  | s :: t => s ++ "," ++ joinComma t

mutual
/-- The conversion `ToString` applied by `RegExp.prototype.test` to its argument. An
object answers `[object Object]` unless it carries an own `toString` property,
which in a parsed JSON body is never callable, so that the conversion throws. -/
def toStr (fmt : NumberFormat) : JVal → Except Fault String
  | JVal.undefined => Except.ok "undefined"
  | JVal.null => Except.ok "null"
  | JVal.bool b => Except.ok (if b then "true" else "false")
  | JVal.num q => Except.ok (fmt.text q)
  | JVal.str s => Except.ok s
  | JVal.arr elems => (elemsToStr fmt elems).map joinComma
  | JVal.obj fields =>
      if hasOwn fields "toString" then Except.error Fault.typeError
      else Except.ok "[object Object]"
/-- The element strings of an array being joined: `undefined` and `null` give the
empty string. -/
def elemsToStr (fmt : NumberFormat) : List JVal → Except Fault (List String)
  | [] => Except.ok []
  | JVal.undefined :: rest => (elemsToStr fmt rest).map (fun t => "" :: t)
  | JVal.null :: rest => (elemsToStr fmt rest).map (fun t => "" :: t)
  | v :: rest =>
      match toStr fmt v with
      | Except.error e => Except.error e
      | Except.ok s => (elemsToStr fmt rest).map (fun t => s :: t)
end

/-! ## String built-ins -/

/-- The characters matched by `\s` and removed by `String.prototype.trim`:
ECMAScript WhiteSpace and LineTerminator. -/
def isWhiteSpace (c : Char) : Bool :=
  let n := c.toNat
  n = 0x09 || n = 0x0A || n = 0x0B || n = 0x0C || n = 0x0D || n = 0x20 || n = 0xA0 ||
  n = 0x1680 || (0x2000 ≤ n && n ≤ 0x200A) || n = 0x2028 || n = 0x2029 || n = 0x202F ||
  n = 0x205F || n = 0x3000 || n = 0xFEFF

/-- Removes leading and trailing white space from a character sequence. -/
def trimChars (l : List Char) : List Char :=
  ((l.dropWhile isWhiteSpace).reverse.dropWhile isWhiteSpace).reverse

/-- The method `String.prototype.trim` on a string. -/
def trimStr (s : String) : String := String.mk (trimChars s.data)

/-- The `length` of a string: its number of UTF-16 code units. -/
def jsLength (s : String) : Nat :=
  (s.data.map (fun c => if c.toNat < 0x10000 then 1 else 2)).sum

/-- The call `v.trim()`: a `TypeError` unless `v` is a string. -/
def jsTrim : JVal → Except Fault String
  | JVal.str s => Except.ok (trimStr s)
  | _ => Except.error Fault.typeError

/-! ## Regular expressions -/

/-- Regular expressions over character classes, enough for the two patterns of
the program. -/
inductive Rx where
  | fail : Rx
  | eps : Rx
  | cls (p : Char → Bool) : Rx
  | seq (a b : Rx) : Rx
  | alt (a b : Rx) : Rx
  | star (a : Rx) : Rx

namespace Rx

/-- Whether the expression matches the empty string. -/
def nullable : Rx → Bool
  | fail => false
  | eps => true
  | cls _ => false
  | seq a b => nullable a && nullable b
  | alt a b => nullable a || nullable b
  | star _ => true

/-- The derivative of an expression with respect to a first character. -/
def deriv (c : Char) : Rx → Rx
  | fail => fail
  | eps => fail
  | cls p => if p c then eps else fail
  | seq a b => if nullable a then alt (seq (deriv c a) b) (deriv c b) else seq (deriv c a) b
  | alt a b => alt (deriv c a) (deriv c b)
  | star a => seq (deriv c a) (star a)

/-- Whether the whole character sequence matches the expression (`^...$`). -/
def matchChars : Rx → List Char → Bool
  | r, [] => nullable r
  | r, c :: rest => matchChars (deriv c r) rest

/-- One or more repetitions: `a+`. -/
def plus (a : Rx) : Rx := seq a (star a)

/-- Exactly `n` repetitions: `a{n}`. -/
def rep : Nat → Rx → Rx
  | 0, _ => eps
  | n + 1, a => seq a (rep n a)

/-- A single literal character. -/
def chr (c : Char) : Rx := cls (fun d => d == c)

end Rx

/-- The call `regex.test(s)` for an anchored pattern without flags `g` or `y`. -/
def rxTest (r : Rx) (s : String) : Bool := Rx.matchChars r s.data

/-- The class `[^\s@]`. -/
def notSpaceAt (c : Char) : Bool := !isWhiteSpace c && c != '@'

/-- The method `String.prototype.toLowerCase`, left open but for two facts. Lower-casing a
lower-cased string changes nothing. And lower-casing rewrites a string character by character:
each character into one or more characters, `@` and `.` into themselves, and a character that
is neither white space nor `@` into characters that are neither. -/
structure CaseMap where
  lower : String → String
  idem : ∀ s, lower (lower s) = lower s
  pointwise : ∀ s : String, ∃ parts : List (List Char),
    (lower s).data = parts.flatten ∧
    List.Forall₂ (fun c part => part ≠ [] ∧ (c = '@' → part = ['@']) ∧
      (c = '.' → part = ['.']) ∧
      (notSpaceAt c = true → ∀ d ∈ part, notSpaceAt d = true)) s.data parts

/-- Lower case of an ASCII letter; any other character is kept. -/
def asciiLowerChar (c : Char) : Char :=
  if 65 ≤ c.toNat ∧ c.toNat ≤ 90 then Char.ofNat (c.toNat + 32) else c

/-- Lower case of the ASCII letters of a string. -/
def asciiLower (s : String) : String := String.mk (s.data.map asciiLowerChar)

/-- A case map for evaluating the handlers on requests whose text is ASCII, where it is what
`toLowerCase` computes. -/
def asciiCase : CaseMap :=
  have hcases : ∀ c : Char,
      (asciiLowerChar c = c ∧ ¬(65 ≤ c.toNat ∧ c.toNat ≤ 90)) ∨
      ((65 ≤ c.toNat ∧ c.toNat ≤ 90) ∧
        97 ≤ (asciiLowerChar c).toNat ∧ (asciiLowerChar c).toNat ≤ 122) := by
    intro c
    unfold asciiLowerChar
    by_cases h : 65 ≤ c.toNat ∧ c.toNat ≤ 90
    · right
      rw [if_pos h]
      refine ⟨h, ?_⟩
      obtain ⟨h1, h2⟩ := h
      generalize c.toNat = n at h1 h2
      interval_cases n <;> decide
    · left
      rw [if_neg h]
      exact ⟨rfl, h⟩
  have hidem : ∀ c : Char, asciiLowerChar (asciiLowerChar c) = asciiLowerChar c := by
    intro c
    rcases hcases c with ⟨h, _⟩ | ⟨_, h1, _⟩
    · rw [h, h]
    · have hn : ¬(65 ≤ (asciiLowerChar c).toNat ∧ (asciiLowerChar c).toNat ≤ 90) := by omega
      generalize asciiLowerChar c = d at hn
      unfold asciiLowerChar
      rw [if_neg hn]
  have hclass : ∀ c : Char, notSpaceAt c = true → notSpaceAt (asciiLowerChar c) = true := by
    intro c hc
    rcases hcases c with ⟨h, _⟩ | ⟨_, h3, h4⟩
    · rw [h]; exact hc
    · have hws : isWhiteSpace (asciiLowerChar c) = false := by
        unfold isWhiteSpace
        simp only [Bool.or_eq_false_iff, Bool.and_eq_false_iff, decide_eq_false_iff_not]
        omega
      have hat : asciiLowerChar c ≠ '@' := by
        intro e
        rw [e] at h3
        revert h3
        decide
      simp [notSpaceAt, hws, hat]
  have hparts : ∀ l : List Char,
      List.Forall₂ (fun c part => part ≠ [] ∧ (c = '@' → part = ['@']) ∧
        (c = '.' → part = ['.']) ∧
        (notSpaceAt c = true → ∀ d ∈ part, notSpaceAt d = true)) l
        (l.map (fun c => [asciiLowerChar c])) := by
    intro l
    induction l with
    | nil => exact List.Forall₂.nil
    | cons c t ih =>
      refine List.Forall₂.cons ⟨by simp, ?_, ?_, ?_⟩ ih
      · intro h; rw [h]; decide
      · intro h; rw [h]; decide
      · intro h d hd
        simp only [List.mem_singleton] at hd
        rw [hd]
        exact hclass c h
  have hjoin : ∀ l : List Char, l.map asciiLowerChar =
      (l.map (fun c => [asciiLowerChar c])).flatten := by
    intro l
    induction l with
    | nil => rfl
    | cons c t ih => simp [ih]
  { lower := asciiLower
    idem := fun s => by
      unfold asciiLower
      simp [List.map_map, Function.comp_def, hidem]
    pointwise := fun s => ⟨s.data.map (fun c => [asciiLowerChar c]), hjoin s.data, hparts s.data⟩ }

/-- The call `v.toLowerCase()`: a `TypeError` unless `v` is a string. -/
def jsToLowerCase (cm : CaseMap) : JVal → Except Fault String
  | JVal.str s => Except.ok (cm.lower s)
  | _ => Except.error Fault.typeError

/-- The pattern `/^[^\s@]+@[^\s@]+\.[^\s@]+$/`. -/
def emailRegex : Rx :=
  Rx.seq (Rx.plus (Rx.cls notSpaceAt))
    (Rx.seq (Rx.chr '@')
      (Rx.seq (Rx.plus (Rx.cls notSpaceAt))
        (Rx.seq (Rx.chr '.') (Rx.plus (Rx.cls notSpaceAt)))))

/-- The class `[0-9a-f]` under the flag `i`. -/
def hexDigit (c : Char) : Bool :=
  let n := c.toNat
  (48 ≤ n && n ≤ 57) || (97 ≤ n && n ≤ 102) || (65 ≤ n && n ≤ 70)

/-- The pattern
`/^[0-9a-f]{8}-[0-9a-f]{4}-[0-9a-f]{4}-[0-9a-f]{4}-[0-9a-f]{12}$/i`. -/
def uuidRegex : Rx :=
  Rx.seq (Rx.rep 8 (Rx.cls hexDigit))
    (Rx.seq (Rx.chr '-')
      (Rx.seq (Rx.rep 4 (Rx.cls hexDigit))
        (Rx.seq (Rx.chr '-')
          (Rx.seq (Rx.rep 4 (Rx.cls hexDigit))
            (Rx.seq (Rx.chr '-')
              (Rx.seq (Rx.rep 4 (Rx.cls hexDigit))
                (Rx.seq (Rx.chr '-') (Rx.rep 12 (Rx.cls hexDigit)))))))))

/-! ## Validation functions -/

/-- Source: `isValidEmail(email)`, `emailRegex.test(email)`; the argument is first
converted to a string, which can throw. -/
def isValidEmail (fmt : NumberFormat) (email : JVal) : Except Fault Bool :=
  (toStr fmt email).map (fun s => rxTest emailRegex s)

/-- Source: `isValidAge(age)`,
`Number.isInteger(age) && age > 0 && age < 150`. -/
def isValidAge : JVal → Bool
  | JVal.num q => q.isInt && decide (0 < q) && decide (q < 150)
  | _ => false

/-- Source: `isValidName(name)`,
`typeof name === 'string' && name.trim().length > 0 && name.length <= 100`. -/
def isValidName : JVal → Bool
  | JVal.str s => decide (0 < jsLength (trimStr s)) && decide (jsLength s ≤ 100)
  | _ => false

/-- The object returned by `validateUser`: `{ valid, error }`. -/
structure Validation where
  valid : Bool
  error : Option String
  deriving DecidableEq, Repr

/-- Source: `validateUser(user, isUpdate)`. -/
def validateUser (fmt : NumberFormat) (user : List (String × JVal)) (isUpdate : Bool) :
    Except Fault Validation :=
  if !isUpdate && !truthy (getProp user "name") then
    Except.ok { valid := false, error := some "Name is required" }
  else if !isUpdate && !truthy (getProp user "email") then
    Except.ok { valid := false, error := some "Email is required" }
  else if !isUpdate && !truthy (getProp user "age") then
    Except.ok { valid := false, error := some "Age is required" }
  else if !isUndefined (getProp user "name") && !isValidName (getProp user "name") then
    Except.ok { valid := false, error := some "Name must be a non-empty string (max 100 chars)" }
  else
    match (if isUndefined (getProp user "email") then Except.ok true
        else isValidEmail fmt (getProp user "email")) with
    | Except.error f => Except.error f
    | Except.ok false => Except.ok { valid := false, error := some "Invalid email format" }
    | Except.ok true =>
      if !isUndefined (getProp user "age") && !isValidAge (getProp user "age") then
        Except.ok { valid := false, error := some "Age must be a number between 1 and 149" }
      else Except.ok { valid := true, error := none }

/-! ## The record store and the responses -/

/-- A user record, as built by `POST /users`. The clock readings stand for the
ISO strings made from them. -/
structure User where
  id : String
  name : String
  email : String
  age : JVal
  createdAt : Nat
  updatedAt : Nat

/-- The `users` map: keys with their records, in insertion order. -/
abbrev Store := List (String × User)

/-- The call `users.get(id)`. -/
def mapGet : Store → String → Option User
  | [], _ => none
  | (k, u) :: rest, id => if k = id then some u else mapGet rest id

/-- The call `users.has(id)`. -/
def mapHas (users : Store) (id : String) : Bool := (mapGet users id).isSome

/-- The call `users.set(id, u)`: replaces the value of an existing key in place,
appends a new key. -/
def mapSet : Store → String → User → Store
  | [], id, u => [(id, u)]
  | (k, v) :: rest, id, u => if k = id then (k, u) :: rest else (k, v) :: mapSet rest id u

/-- The call `users.delete(id)`. -/
def mapDelete : Store → String → Store
  | [], _ => []
  | (k, v) :: rest, id => if k = id then rest else (k, v) :: mapDelete rest id

/-- The call `users.values()`, in iteration order. -/
def mapValues (users : Store) : List User := users.map Prod.snd

/-- An assignment to a property of the object held under `id`: the record under
that key becomes `u`, every other entry stays. -/
def mapWrite : Store → String → User → Store
  | [], _, _ => []
  | (k, v) :: rest, id, u => if k = id then (k, u) :: rest else (k, v) :: mapWrite rest id u

/-- The JSON body sent by `res.status(status).json(...)`: `text` is the `message`
of a success and the `error` of a failure. -/
structure Response where
  status : Nat
  success : Bool
  text : String
  data : Option User

/-- The 400 response carrying `error`. -/
def badRequest (error : String) : Response :=
  { status := 400, success := false, text := error, data := none }

/-- The 404 response of the handlers. -/
def notFound : Response :=
  { status := 404, success := false, text := "User not found", data := none }

/-- The 500 response of every `catch` block. -/
def internalError : Response :=
  { status := 500, success := false, text := "Internal server error", data := none }

/-- The 201 response of `POST`, carrying the new record. -/
def userCreated (user : User) : Response :=
  { status := 201, success := true, text := "User created successfully", data := some user }

/-- The 200 response of `PUT` and `PATCH`, carrying the record as it is after the
update. -/
def userUpdated (user : User) : Response :=
  { status := 200, success := true, text := "User updated successfully", data := some user }

/-- The scan `for (let user of users.values())` comparing
`user.email.toLowerCase() === email.toLowerCase()`: whether some record matches.
The right-hand side is evaluated in each iteration and throws on a non-string. -/
def emailTaken (cm : CaseMap) (email : JVal) : List User → Except Fault Bool
  | [] => Except.ok false
  | u :: rest =>
      match jsToLowerCase cm email with
      | Except.error f => Except.error f
      | Except.ok e =>
        if cm.lower u.email = e then Except.ok true else emailTaken cm email rest

/-! ## Request handlers -/

/-- Source: `app.post('/users')`. `userId` is the value of `uuidv4()`, `t1` and `t2` the two
clock readings, `cm` the lower-casing of `toLowerCase`. -/
def postUsers (fmt : NumberFormat) (cm : CaseMap) (users : Store) (body : List (String × JVal))
    (userId : String) (t1 t2 : Nat) : Response × Store :=
  let name := getProp body "name"
  let email := getProp body "email"
  let age := getProp body "age"
  match validateUser fmt [("name", name), ("email", email), ("age", age)] false with
  | Except.error _ => (internalError, users)
  | Except.ok validation =>
    if !validation.valid then (badRequest (validation.error.getD ""), users)
    else
      match emailTaken cm email (mapValues users) with
      | Except.error _ => (internalError, users)
      | Except.ok true => (badRequest "Email already exists", users)
      | Except.ok false =>
        match jsTrim name with
        | Except.error _ => (internalError, users)
        | Except.ok trimmed =>
          match jsToLowerCase cm email with
          | Except.error _ => (internalError, users)
          | Except.ok lowered =>
            let newUser : User :=
              { id := userId, name := trimmed, email := lowered, age := age,
                createdAt := t1, updatedAt := t2 }
            (userCreated newUser, mapSet users userId newUser)

/-- Source: `app.get('/users')`. -/
def getUsers (users : Store) : Nat × List User × Nat :=
  (200, mapValues users, (mapValues users).length)

/-- Source: `app.get('/users/:id')`. -/
def getUser (users : Store) (id : String) : Response × Store :=
  if !rxTest uuidRegex id then (badRequest "Invalid user ID format", users)
  else
    match mapGet users id with
    | none => (notFound, users)
    | some user =>
      ({ status := 200, success := true, text := "User retrieved successfully",
         data := some user }, users)

/-- Source: `app.put('/users/:id')`. `now` is the clock reading. -/
def putUser (fmt : NumberFormat) (cm : CaseMap) (users : Store) (id : String)
    (body : List (String × JVal)) (now : Nat) : Response × Store :=
  let name := getProp body "name"
  let email := getProp body "email"
  let age := getProp body "age"
  if !rxTest uuidRegex id then (badRequest "Invalid user ID format", users)
  else
    match mapGet users id with
    | none => (notFound, users)
    | some user =>
      match validateUser fmt [("name", name), ("email", email), ("age", age)] true with
      | Except.error _ => (internalError, users)
      | Except.ok validation =>
        if !validation.valid then (badRequest (validation.error.getD ""), users)
        else
          -- if (email && email.toLowerCase() !== user.email.toLowerCase()) { scan }
          match (if truthy email then
                  match jsToLowerCase cm email with
                  | Except.error f => Except.error f
                  | Except.ok e =>
                    if e ≠ cm.lower user.email then emailTaken cm email (mapValues users)
                    else Except.ok false
                else Except.ok false) with
          | Except.error _ => (internalError, users)
          | Except.ok true => (badRequest "Email already exists", users)
          | Except.ok false =>
            -- if (name) user.name = name.trim();
            match (if truthy name then (jsTrim name).map (fun n => { user with name := n })
                   else Except.ok user) with
            | Except.error _ => (internalError, users)
            | Except.ok user1 =>
              let users1 := mapWrite users id user1
              -- if (email) user.email = email.toLowerCase();
              match (if truthy email then
                      (jsToLowerCase cm email).map (fun e => { user1 with email := e })
                     else Except.ok user1) with
              | Except.error _ => (internalError, users1)
              | Except.ok user2 =>
                -- if (age) user.age = age;
                let user3 : User := if truthy age then { user2 with age := age } else user2
                let user4 : User := { user3 with updatedAt := now }
                (userUpdated user4, mapWrite users id user4)

/-- Source: `app.patch('/users/:id')`. `now` is the clock reading. -/
def patchUser (fmt : NumberFormat) (cm : CaseMap) (users : Store) (id : String)
    (updates : List (String × JVal)) (now : Nat) : Response × Store :=
  if !rxTest uuidRegex id then (badRequest "Invalid user ID format", users)
  else
    match mapGet users id with
    | none => (notFound, users)
    | some user =>
      match validateUser fmt updates true with
      | Except.error _ => (internalError, users)
      | Except.ok validation =>
        if !validation.valid then (badRequest (validation.error.getD ""), users)
        else
          -- if (updates.name !== undefined) user.name = updates.name.trim();
          match (if !isUndefined (getProp updates "name") then
                  (jsTrim (getProp updates "name")).map (fun n => { user with name := n })
                 else Except.ok user) with
          | Except.error _ => (internalError, users)
          | Except.ok user1 =>
            let users1 := mapWrite users id user1
            if !isUndefined (getProp updates "email") then
              match jsToLowerCase cm (getProp updates "email") with
              | Except.error _ => (internalError, users1)
              | Except.ok e =>
                match (if e ≠ cm.lower user1.email then
                        emailTaken cm (getProp updates "email") (mapValues users1)
                       else Except.ok false) with
                | Except.error _ => (internalError, users1)
                | Except.ok true => (badRequest "Email already exists", users1)
                | Except.ok false =>
                  let user2 : User := { user1 with email := e }
                  let user3 : User :=
                    if !isUndefined (getProp updates "age") then
                      { user2 with age := getProp updates "age" }
                    else user2
                  let user4 : User := { user3 with updatedAt := now }
                  (userUpdated user4, mapWrite users id user4)
            else
              let user3 : User :=
                if !isUndefined (getProp updates "age") then
                  { user1 with age := getProp updates "age" }
                else user1
              let user4 : User := { user3 with updatedAt := now }
              (userUpdated user4, mapWrite users id user4)

/-- Source: `app.delete('/users/:id')`. -/
def deleteUser (users : Store) (id : String) : Response × Store :=
  if !rxTest uuidRegex id then (badRequest "Invalid user ID format", users)
  else if !mapHas users id then (notFound, users)
  else
    ({ status := 200, success := true, text := "User deleted successfully", data := none },
     mapDelete users id)

/-- The stores the running server can hold: the empty map at start, then the map left
by any handler called with any input. -/
inductive Reachable (fmt : NumberFormat) (cm : CaseMap) : Store → Prop where
  | init : Reachable fmt cm []
  | post {users : Store} (h : Reachable fmt cm users) (body : List (String × JVal))
      (userId : String) (t1 t2 : Nat) :
      Reachable fmt cm (postUsers fmt cm users body userId t1 t2).2
  | put {users : Store} (h : Reachable fmt cm users) (id : String)
      (body : List (String × JVal)) (now : Nat) :
      Reachable fmt cm (putUser fmt cm users id body now).2
  | patch {users : Store} (h : Reachable fmt cm users) (id : String)
      (updates : List (String × JVal)) (now : Nat) :
      Reachable fmt cm (patchUser fmt cm users id updates now).2
  | delete {users : Store} (h : Reachable fmt cm users) (id : String) :
      Reachable fmt cm (deleteUser users id).2

/-- What a successful `PUT` or `PATCH` with body `body` makes of the record `old` of the
map `users`: the record `new`. -/
def FieldsUpdated (cm : CaseMap) (users : Store) (body : List (String × JVal))
    (old new : User)
    (now : Nat) : Prop :=
  new.id = old.id ∧ new.createdAt = old.createdAt ∧ new.updatedAt = now ∧
  ((getProp body "name" = JVal.undefined ∧ new.name = old.name) ∨
    ∃ n, getProp body "name" = JVal.str n ∧ isValidName (JVal.str n) = true ∧
      new.name = trimStr n) ∧
  ((getProp body "email" = JVal.undefined ∧ new.email = old.email) ∨
    ∃ e, getProp body "email" = JVal.str e ∧ rxTest emailRegex e = true ∧
      new.email = cm.lower e ∧
      (cm.lower e = cm.lower old.email ∨
        ∀ u ∈ mapValues users, cm.lower u.email ≠ cm.lower e)) ∧
  ((getProp body "age" = JVal.undefined ∧ new.age = old.age) ∨
    (isValidAge (getProp body "age") = true ∧ new.age = getProp body "age"))

/-- A record whose three fields pass the validators. -/
def ValidUser (fmt : NumberFormat) (u : User) : Prop :=
  isValidName (JVal.str u.name) = true ∧
  isValidEmail fmt (JVal.str u.email) = Except.ok true ∧
  isValidAge u.age = true

/-! ## Sample requests -/

/-- A well-formed id, as `uuidv4()` gives them. -/
def idA : String := "11111111-1111-4111-8111-111111111111"

/-- A second well-formed id. -/
def idB : String := "22222222-2222-4222-8222-222222222222"

/-- The body `{name: "Alice", email: "Alice@X.com", age: 30}`. -/
def aliceBody : List (String × JVal) :=
  [("name", JVal.str "Alice"), ("email", JVal.str "Alice@X.com"), ("age", JVal.num 30)]

/-- The body `{name: "  Bob  ", email: "bob@x.com", age: 40}`. -/
def bobBody : List (String × JVal) :=
  [("name", JVal.str "  Bob  "), ("email", JVal.str "bob@x.com"), ("age", JVal.num 40)]

/-- The update body `{name: "Zed", email: "BOB@x.com"}`: a new name and the email of Bob. -/
def zedBody : List (String × JVal) :=
  [("name", JVal.str "Zed"), ("email", JVal.str "BOB@x.com")]

/-- The body `{name: "Al", email: ["a@b.co"], age: 30}`: the email is an array. -/
def arrayEmailBody : List (String × JVal) :=
  [("name", JVal.str "Al"), ("email", JVal.arr [JVal.str "a@b.co"]), ("age", JVal.num 30)]

/-- The update body `{age: 31, id: "x", createdAt: "y"}`. -/
def ageBody : List (String × JVal) :=
  [("age", JVal.num 31), ("id", JVal.str "x"), ("createdAt", JVal.str "y")]

/-- The record `POST aliceBody` stores under `idA` at clock reading 1. -/
def aliceRecord : User :=
  { id := idA, name := "Alice", email := "alice@x.com", age := JVal.num 30,
    createdAt := 1, updatedAt := 1 }

/-- The map after `POST aliceBody` on the empty map. -/
def aliceStore : Store := (postUsers plainFormat asciiCase [] aliceBody idA 1 1).2

/-- The update body `{email: {toString: 1}, age: 150}`: the email is an object with an own
property `toString`, and the age is out of range. -/
def throwingEmailBody : List (String × JVal) :=
  [("email", JVal.obj [("toString", JVal.num 1)]), ("age", JVal.num 150)]

/-- The map after `POST aliceBody` and `POST bobBody` on the empty map. -/
def sampleStore : Store :=
  (postUsers plainFormat asciiCase (postUsers plainFormat asciiCase [] aliceBody idA 1 1).2 bobBody idB 2 2).2

/-- The body `{name: "", email: "a@b.co", age: 30}`: the name is the empty string. -/
def emptyNameBody : List (String × JVal) :=
  [("name", JVal.str ""), ("email", JVal.str "a@b.co"), ("age", JVal.num 30)]

/-- The body `{name: "Al", email: "a@b.co", age: 0}`: the age is 0. -/
def zeroAgeBody : List (String × JVal) :=
  [("name", JVal.str "Al"), ("email", JVal.str "a@b.co"), ("age", JVal.num 0)]

/-- The shape of an email in the words of the specification: no white space, exactly one `@`,
at least one character before it, and after it a `.` that is neither the first nor the last
character of that part. -/
def EmailShape (s : String) : Prop :=
  (∀ c ∈ s.data, isWhiteSpace c = false) ∧ s.data.count '@' = 1 ∧
  ∃ a b c, s.data = a ++ '@' :: (b ++ '.' :: c) ∧ a ≠ [] ∧ b ≠ [] ∧ c ≠ []

/-- The stores the running server can hold together with the latest clock reading, when the
clock never goes back: each request reads the clock at or after the previous reading. -/
inductive ReachableAt (fmt : NumberFormat) (cm : CaseMap) : Store → Nat → Prop where
  | init : ReachableAt fmt cm [] 0
  | post {users : Store} {last : Nat} (h : ReachableAt fmt cm users last)
      (body : List (String × JVal)) (userId : String) (t1 t2 : Nat)
      (h1 : last ≤ t1) (h2 : t1 ≤ t2) :
      ReachableAt fmt cm (postUsers fmt cm users body userId t1 t2).2 t2
  | put {users : Store} {last : Nat} (h : ReachableAt fmt cm users last) (id : String)
      (body : List (String × JVal)) (now : Nat) (h1 : last ≤ now) :
      ReachableAt fmt cm (putUser fmt cm users id body now).2 now
  | patch {users : Store} {last : Nat} (h : ReachableAt fmt cm users last) (id : String)
      (updates : List (String × JVal)) (now : Nat) (h1 : last ≤ now) :
      ReachableAt fmt cm (patchUser fmt cm users id updates now).2 now
  | delete {users : Store} {last : Nat} (h : ReachableAt fmt cm users last) (id : String) :
      ReachableAt fmt cm (deleteUser users id).2 last

/-! ## Lemmas on the string built-ins -/

namespace Rx

theorem matchChars_fail (l : List Char) : matchChars fail l = false := by
  induction l with
  | nil => rfl
  | cons c t ih => simpa [matchChars, deriv] using ih

theorem matchChars_eps (l : List Char) : matchChars eps l = true ↔ l = [] := by
  cases l with
  | nil => simp [matchChars, nullable]
  | cons c t => simp [matchChars, deriv, matchChars_fail]

theorem matchChars_cls (p : Char → Bool) (l : List Char) :
    matchChars (cls p) l = true ↔ ∃ c, l = [c] ∧ p c = true := by
  cases l with
  | nil => simp [matchChars, nullable]
  | cons c t =>
    simp only [matchChars, deriv]
    by_cases h : p c = true
    · simp only [h, if_true, matchChars_eps]
      constructor
      · intro ht; exact ⟨c, by rw [ht], h⟩
      · rintro ⟨d, hd, _⟩
        simp only [List.cons.injEq] at hd
        exact hd.2
    · simp only [h, Bool.false_eq_true, if_false, matchChars_fail]
      constructor
      · intro hf; cases hf
      · rintro ⟨d, hd, hp⟩
        simp only [List.cons.injEq] at hd
        rw [hd.1] at h
        exact absurd hp h

theorem matchChars_alt (a b : Rx) (l : List Char) :
    matchChars (alt a b) l = (matchChars a l || matchChars b l) := by
  induction l generalizing a b with
  | nil => rfl
  | cons c t ih => simp only [matchChars, deriv, ih]

theorem matchChars_seq (a b : Rx) (l : List Char) :
    matchChars (seq a b) l = true ↔
      ∃ l1 l2, l = l1 ++ l2 ∧ matchChars a l1 = true ∧ matchChars b l2 = true := by
  induction l generalizing a with
  | nil =>
    simp only [matchChars, nullable, Bool.and_eq_true]
    constructor
    · intro h; exact ⟨[], [], rfl, h.1, h.2⟩
    · rintro ⟨l1, l2, h, h1, h2⟩
      have h' := h.symm
      rw [List.append_eq_nil] at h'
      rw [h'.1] at h1; rw [h'.2] at h2
      exact ⟨h1, h2⟩
  | cons c t ih =>
    have step : matchChars (seq a b) (c :: t) =
        (matchChars (seq (deriv c a) b) t || (nullable a && matchChars (deriv c b) t)) := by
      simp only [matchChars, deriv]
      by_cases hn : nullable a = true
      · simp [hn, matchChars_alt]
      · simp [hn]
    rw [step, Bool.or_eq_true, Bool.and_eq_true, ih]
    constructor
    · rintro (⟨l1, l2, h, h1, h2⟩ | ⟨hn, hb⟩)
      · exact ⟨c :: l1, l2, by rw [h]; rfl, h1, h2⟩
      · exact ⟨[], c :: t, rfl, hn, hb⟩
    · rintro ⟨l1, l2, h, h1, h2⟩
      cases l1 with
      | nil =>
        right
        simp only [List.nil_append] at h
        rw [← h] at h2
        exact ⟨h1, h2⟩
      | cons d l1 =>
        left
        simp only [List.cons_append, List.cons.injEq] at h
        rw [← h.1] at h1
        exact ⟨l1, l2, h.2, h1, h2⟩

end Rx

namespace Rx

theorem matchChars_star_cls (p : Char → Bool) (l : List Char) :
    matchChars (star (cls p)) l = true ↔ ∀ c ∈ l, p c = true := by
  induction l with
  | nil => simp [matchChars, nullable]
  | cons c t ih =>
    have step : matchChars (star (cls p)) (c :: t) =
        matchChars (seq (if p c = true then eps else fail) (star (cls p))) t := rfl
    rw [step, matchChars_seq]
    by_cases hp : p c = true
    · simp only [hp, if_true, matchChars_eps, List.mem_cons, forall_eq_or_imp, true_and]
      constructor
      · rintro ⟨l1, l2, h, h1, h2⟩
        rw [h1, List.nil_append] at h
        rw [← h] at h2
        exact ih.mp h2
      · intro h
        exact ⟨[], t, rfl, rfl, ih.mpr h⟩
    · simp only [hp, Bool.false_eq_true, if_false, matchChars_fail, false_and, and_false,
        exists_false, false_iff]
      intro h
      exact hp (h c (List.mem_cons_self _ _))

theorem matchChars_plus_cls (p : Char → Bool) (l : List Char) :
    matchChars (plus (cls p)) l = true ↔ l ≠ [] ∧ ∀ c ∈ l, p c = true := by
  unfold plus
  rw [matchChars_seq]
  constructor
  · rintro ⟨l1, l2, h, h1, h2⟩
    rw [matchChars_cls] at h1
    obtain ⟨c, hc, hp⟩ := h1
    rw [matchChars_star_cls] at h2
    subst hc
    subst h
    refine ⟨by simp, ?_⟩
    intro d hd
    simp only [List.singleton_append, List.mem_cons] at hd
    rcases hd with hd | hd
    · rw [hd]; exact hp
    · exact h2 d hd
  · rintro ⟨hne, hall⟩
    cases l with
    | nil => exact absurd rfl hne
    | cons c t =>
      refine ⟨[c], t, rfl, ?_, ?_⟩
      · rw [matchChars_cls]
        exact ⟨c, rfl, hall c (List.mem_cons_self _ _)⟩
      · rw [matchChars_star_cls]
        intro d hd
        exact hall d (List.mem_cons_of_mem _ hd)

theorem matchChars_chr (d : Char) (l : List Char) :
    matchChars (chr d) l = true ↔ l = [d] := by
  unfold chr
  rw [matchChars_cls]
  constructor
  · rintro ⟨c, hc, hp⟩
    have : c = d := by simpa using hp
    rw [hc, this]
  · intro h
    exact ⟨d, h, by simp⟩

end Rx

theorem notSpaceAt_iff (c : Char) :
    notSpaceAt c = true ↔ isWhiteSpace c = false ∧ c ≠ '@' := by
  unfold notSpaceAt
  simp

/-- The pattern of `isValidEmail`, read as a splitting of the characters. -/
theorem emailRegex_split (l : List Char) :
    Rx.matchChars emailRegex l = true ↔
      ∃ a b c, l = a ++ '@' :: (b ++ '.' :: c) ∧
        (a ≠ [] ∧ ∀ x ∈ a, notSpaceAt x = true) ∧
        (b ≠ [] ∧ ∀ x ∈ b, notSpaceAt x = true) ∧
        (c ≠ [] ∧ ∀ x ∈ c, notSpaceAt x = true) := by
  unfold emailRegex
  simp only [Rx.matchChars_seq, Rx.matchChars_plus_cls, Rx.matchChars_chr]
  constructor
  · rintro ⟨a, r1, h1, ha, l2, r2, h2, hat, b, r3, h3, hb, l4, c, h4, hdot, hc⟩
    refine ⟨a, b, c, ?_, ha, hb, hc⟩
    rw [h1, h2, hat, h3, h4, hdot]
    simp
  · rintro ⟨a, b, c, h, ha, hb, hc⟩
    exact ⟨a, '@' :: (b ++ '.' :: c), h, ha, ['@'], b ++ '.' :: c, rfl, rfl,
      b, '.' :: c, rfl, hb, ['.'], c, rfl, rfl, hc⟩

theorem forall₂_split {R : Char → List Char → Prop} :
    ∀ (a rest : List Char) (parts : List (List Char)), List.Forall₂ R (a ++ rest) parts →
      ∃ pa prest, parts = pa ++ prest ∧ List.Forall₂ R a pa ∧ List.Forall₂ R rest prest := by
  intro a
  induction a with
  | nil => intro rest parts h; exact ⟨[], parts, rfl, List.Forall₂.nil, h⟩
  | cons c t ih =>
    intro rest parts h
    cases h with
    | cons hc ht =>
      obtain ⟨pa, prest, hp, h1, h2⟩ := ih rest _ ht
      exact ⟨_ :: pa, prest, by rw [hp]; rfl, List.Forall₂.cons hc h1, h2⟩

/-- The images of a non-empty run of characters of the class `[^\s@]` form a non-empty run of
that class. -/
theorem join_class {R : Char → List Char → Prop}
    (hR : ∀ c part, R c part → part ≠ [] ∧
      (notSpaceAt c = true → ∀ d ∈ part, notSpaceAt d = true)) :
    ∀ (a : List Char) (pa : List (List Char)), List.Forall₂ R a pa →
      (a ≠ [] ∧ ∀ x ∈ a, notSpaceAt x = true) →
      pa.flatten ≠ [] ∧ ∀ d ∈ pa.flatten, notSpaceAt d = true := by
  intro a pa h
  induction h with
  | nil => intro hh; exact absurd rfl hh.1
  | @cons c part t pt hc ht ih =>
    intro hh
    obtain ⟨hne, hcl⟩ := hR c part hc
    rw [List.flatten_cons]
    constructor
    · intro hp
      rw [List.append_eq_nil] at hp
      exact hne hp.1
    · intro d hd
      rw [List.mem_append] at hd
      rcases hd with hd | hd
      · exact hcl (hh.2 c (List.mem_cons_self _ _)) d hd
      · by_cases ht0 : t = []
        · subst ht0
          cases ht
          simp at hd
        · exact (ih ⟨ht0, fun x hx => hh.2 x (List.mem_cons_of_mem _ hx)⟩).2 d hd

/-- Lower-casing a string that has the shape of an email gives a string of that shape. -/
theorem rxTest_email_lower (cm : CaseMap) (s : String) (h : rxTest emailRegex s = true) :
    rxTest emailRegex (cm.lower s) = true := by
  unfold rxTest at h ⊢
  rw [emailRegex_split] at h ⊢
  obtain ⟨a, b, c, hs, ha, hb, hc⟩ := h
  obtain ⟨parts, hjoin, hall⟩ := cm.pointwise s
  rw [hs] at hall
  obtain ⟨pa, p1, e1, fa, f1⟩ := forall₂_split a _ parts hall
  cases f1 with
  | @cons _ pat _ p2 hat f2 =>
    obtain ⟨pb, p3, e3, fb, f3⟩ := forall₂_split b _ p2 f2
    cases f3 with
    | @cons _ pdot _ pc hdot fc =>
      have hR : ∀ (x : Char) (part : List Char),
          (part ≠ [] ∧ (x = '@' → part = ['@']) ∧ (x = '.' → part = ['.']) ∧
            (notSpaceAt x = true → ∀ d ∈ part, notSpaceAt d = true)) →
          part ≠ [] ∧ (notSpaceAt x = true → ∀ d ∈ part, notSpaceAt d = true) :=
        fun x part hx => ⟨hx.1, hx.2.2.2⟩
      refine ⟨pa.flatten, pb.flatten, pc.flatten, ?_, join_class hR a pa fa ha,
        join_class hR b pb fb hb, join_class hR c pc fc hc⟩
      rw [hjoin, e1, e3, hat.2.1 rfl, hdot.2.2.1 rfl]
      simp [List.flatten_append, List.flatten_cons]

/-- A string with the shape of an email contains an `@`. -/
theorem at_mem_of_email (l : List Char) (h : Rx.matchChars emailRegex l = true) : '@' ∈ l := by
  unfold emailRegex at h
  rw [Rx.matchChars_seq] at h
  obtain ⟨l1, l2, hl, _, h2⟩ := h
  rw [Rx.matchChars_seq] at h2
  obtain ⟨l3, l4, hl2, h3, _⟩ := h2
  unfold Rx.chr at h3
  rw [Rx.matchChars_cls] at h3
  obtain ⟨c, hc, hp⟩ := h3
  have hc2 : c = '@' := by simpa using hp
  rw [hl, hl2, hc, hc2]
  simp

/-- A value that passes `isValidEmail` is a string of email shape, or an array. -/
theorem isValidEmail_true (fmt : NumberFormat) (v : JVal)
    (h : isValidEmail fmt v = Except.ok true) :
    (∃ e, v = JVal.str e ∧ rxTest emailRegex e = true) ∨ (∃ elems, v = JVal.arr elems) := by
  cases v with
  | undefined => exact absurd h (by simp [isValidEmail, toStr, Except.map]; decide)
  | null => exact absurd h (by simp [isValidEmail, toStr, Except.map]; decide)
  | bool b => cases b <;> exact absurd h (by simp [isValidEmail, toStr, Except.map]; decide)
  | num q =>
    exfalso
    simp only [isValidEmail, toStr, Except.map, Except.ok.injEq] at h
    exact fmt.noAt q (at_mem_of_email _ h)
  | str e =>
    left
    simp only [isValidEmail, toStr, Except.map, Except.ok.injEq] at h
    exact ⟨e, rfl, h⟩
  | arr elems => exact Or.inr ⟨elems, rfl⟩
  | obj fields =>
    exfalso
    simp only [isValidEmail, toStr] at h
    split at h
    · simp [Except.map] at h
    · revert h
      simp [Except.map]
      decide

theorem trimChars_idem (l : List Char) : trimChars (trimChars l) = trimChars l := by
  have e : ∀ m : List Char, trimChars m = List.rdropWhile isWhiteSpace (m.dropWhile isWhiteSpace) :=
    fun m => rfl
  have key : (trimChars l).dropWhile isWhiteSpace = trimChars l := by
    rw [List.dropWhile_eq_self_iff]
    intro hl
    have hpre : trimChars l <+: l.dropWhile isWhiteSpace := by
      rw [e]; exact List.rdropWhile_prefix _ _
    obtain ⟨t, ht⟩ := hpre
    have hself : (l.dropWhile isWhiteSpace).dropWhile isWhiteSpace = l.dropWhile isWhiteSpace :=
      List.dropWhile_idempotent _ _
    rw [List.dropWhile_eq_self_iff] at hself
    have hlen : 0 < (l.dropWhile isWhiteSpace).length := by
      rw [← ht, List.length_append]; omega
    have h0 := hself hlen
    have : (l.dropWhile isWhiteSpace).get ⟨0, hlen⟩ = (trimChars l).get ⟨0, hl⟩ := by
      simp only [← ht, List.get_eq_getElem]
      rw [List.getElem_append_left]
    rw [this] at h0
    exact h0
  rw [e (trimChars l), key, e l, List.rdropWhile_idempotent]

theorem trimStr_idem (s : String) : trimStr (trimStr s) = trimStr s := by
  unfold trimStr
  simp [trimChars_idem]

theorem trimChars_sublist (l : List Char) : (trimChars l).Sublist l := by
  have e : trimChars l = List.rdropWhile isWhiteSpace (l.dropWhile isWhiteSpace) := rfl
  rw [e]
  exact (List.rdropWhile_prefix _ _).sublist.trans (List.dropWhile_sublist _)

theorem jsLength_trimStr_le (s : String) : jsLength (trimStr s) ≤ jsLength s := by
  unfold jsLength trimStr
  exact List.Sublist.sum_le_sum ((trimChars_sublist s.data).map _) (by simp)

/-- A valid name stays valid when trimmed. -/
theorem isValidName_trimStr (s : String) (h : isValidName (JVal.str s) = true) :
    isValidName (JVal.str (trimStr s)) = true := by
  simp only [isValidName, Bool.and_eq_true, decide_eq_true_eq] at h ⊢
  rw [trimStr_idem]
  exact ⟨h.1, le_trans (jsLength_trimStr_le s) h.2⟩

/-! ## Lemmas on validation -/

theorem getProp_triple (a b c : JVal) :
    getProp [("name", a), ("email", b), ("age", c)] "name" = a ∧
    getProp [("name", a), ("email", b), ("age", c)] "email" = b ∧
    getProp [("name", a), ("email", b), ("age", c)] "age" = c := by
  refine ⟨?_, ?_, ?_⟩ <;> simp [getProp]

/-- What a successful validation says of the three fields. -/
theorem validateUser_valid (fmt : NumberFormat) (u : List (String × JVal)) (isUpdate : Bool)
    (v : Validation) (h : validateUser fmt u isUpdate = Except.ok v) (hv : v.valid = true) :
    (isUndefined (getProp u "name") = true ∨ isValidName (getProp u "name") = true) ∧
    (isUndefined (getProp u "email") = true ∨
      isValidEmail fmt (getProp u "email") = Except.ok true) ∧
    (isUndefined (getProp u "age") = true ∨ isValidAge (getProp u "age") = true) ∧
    (isUpdate = false → truthy (getProp u "name") = true ∧
      truthy (getProp u "email") = true ∧ truthy (getProp u "age") = true) := by
  unfold validateUser at h
  split at h
  · simp only [Except.ok.injEq] at h; rw [← h] at hv; cases hv
  split at h
  · simp only [Except.ok.injEq] at h; rw [← h] at hv; cases hv
  split at h
  · simp only [Except.ok.injEq] at h; rw [← h] at hv; cases hv
  split at h
  · simp only [Except.ok.injEq] at h; rw [← h] at hv; cases hv
  rename_i h1 h2 h3 h4
  split at h
  · cases h
  · simp only [Except.ok.injEq] at h; rw [← h] at hv; cases hv
  rename_i h5
  split at h
  · simp only [Except.ok.injEq] at h; rw [← h] at hv; cases hv
  rename_i h6
  refine ⟨?_, ?_, ?_, ?_⟩
  · cases hu : isUndefined (getProp u "name")
    · right
      simpa [hu] using h4
    · left; rfl
  · cases hu : isUndefined (getProp u "email")
    · right
      simpa [hu] using h5
    · left; rfl
  · cases hu : isUndefined (getProp u "age")
    · right
      simpa [hu] using h6
    · left; rfl
  · intro hup
    subst hup
    simp only [Bool.not_false, Bool.true_and, Bool.not_eq_true', Bool.not_eq_false] at h1 h2 h3
    exact ⟨h1, h2, h3⟩

theorem isUndefined_iff (v : JVal) : isUndefined v = true ↔ v = JVal.undefined := by
  cases v <;> simp [isUndefined]

theorem isUndefined_undefined : isUndefined JVal.undefined = true := rfl

theorem isUndefined_str (x : String) : isUndefined (JVal.str x) = false := rfl

theorem isUndefined_arr (x : List JVal) : isUndefined (JVal.arr x) = false := rfl

theorem truthy_undefined : truthy JVal.undefined = false := rfl

theorem isValidName_str (v : JVal) (h : isValidName v = true) : ∃ n, v = JVal.str n := by
  cases v <;> simp [isValidName] at h
  exact ⟨_, rfl⟩

theorem truthy_of_isValidName (n : String) (h : isValidName (JVal.str n) = true) :
    truthy (JVal.str n) = true := by
  simp only [truthy, decide_eq_true_eq]
  intro hn
  subst hn
  revert h
  decide

theorem truthy_of_email (e : String) (h : rxTest emailRegex e = true) :
    truthy (JVal.str e) = true := by
  simp only [truthy, decide_eq_true_eq]
  intro hn
  subst hn
  revert h
  decide

theorem truthy_of_isValidAge (v : JVal) (h : isValidAge v = true) :
    truthy v = true ∧ isUndefined v = false := by
  cases v <;> simp [isValidAge] at h
  rename_i q
  refine ⟨?_, rfl⟩
  simp only [truthy, decide_eq_true_eq]
  exact ne_of_gt h.1.2

/-! ## Lemmas on the map -/

theorem emailTaken_str {cm : CaseMap} (e : String) (l : List User) :
    emailTaken cm (JVal.str e) l = Except.ok (l.any (fun u => cm.lower u.email == cm.lower e)) := by
  induction l with
  | nil => rfl
  | cons u rest ih =>
    simp only [emailTaken, jsToLowerCase, List.any_cons]
    by_cases h : cm.lower u.email = cm.lower e
    · simp [h]
    · simp [h, ih]

theorem emailTaken_str_false {cm : CaseMap} (e : String) (l : List User)
    (h : emailTaken cm (JVal.str e) l = Except.ok false) :
    ∀ u ∈ l, cm.lower u.email ≠ cm.lower e := by
  rw [emailTaken_str] at h
  simp only [Except.ok.injEq, List.any_eq_false, beq_iff_eq] at h
  exact h

theorem mapWrite_mapWrite (users : Store) (id : String) (a b : User) :
    mapWrite (mapWrite users id a) id b = mapWrite users id b := by
  induction users with
  | nil => rfl
  | cons p rest ih =>
    obtain ⟨k, v⟩ := p
    by_cases h : k = id
    · simp [mapWrite, h]
    · simp [mapWrite, h, ih]

theorem mapWrite_self (users : Store) (id : String) (old : User)
    (h : mapGet users id = some old) : mapWrite users id old = users := by
  induction users with
  | nil => rfl
  | cons p rest ih =>
    obtain ⟨k, v⟩ := p
    by_cases hk : k = id
    · simp only [mapGet, hk, if_true, Option.some.injEq] at h
      simp [mapWrite, hk, h]
    · simp only [mapGet, hk, if_false] at h
      simp [mapWrite, hk, ih h]

theorem emails_mapWrite (users : Store) (id : String) (old new : User)
    (h : mapGet users id = some old) (he : new.email = old.email) :
    (mapValues (mapWrite users id new)).map (fun u => u.email) =
      (mapValues users).map (fun u => u.email) := by
  induction users with
  | nil => rfl
  | cons p rest ih =>
    obtain ⟨k, v⟩ := p
    by_cases hk : k = id
    · simp only [mapGet, hk, if_true, Option.some.injEq] at h
      simp [mapWrite, mapValues, hk, h, he]
    · simp only [mapGet, hk, if_false] at h
      have := ih h
      simp only [mapValues] at this
      simp [mapWrite, mapValues, hk, this]

theorem any_email_congr {cm : CaseMap} (e : String) (l1 l2 : List User)
    (h : l1.map (fun u => u.email) = l2.map (fun u => u.email)) :
    l1.any (fun u => cm.lower u.email == cm.lower e) =
      l2.any (fun u => cm.lower u.email == cm.lower e) := by
  have key : ∀ l : List User, l.any (fun u => cm.lower u.email == cm.lower e) =
      (l.map (fun u => u.email)).any (fun x => cm.lower x == cm.lower e) := by
    intro l
    induction l with
    | nil => rfl
    | cons u t ih => simp [List.any_cons, ih]
  rw [key l1, key l2, h]

/-! ## What the update handlers do -/

/-- Every call of `PUT /users/:id` either fails and leaves the map as it was, or succeeds and
rewrites the record under `id` as `FieldsUpdated` says. -/
theorem putUser_spec (fmt : NumberFormat) (cm : CaseMap) (users : Store) (id : String)
    (body : List (String × JVal)) (now : Nat) :
    ((putUser fmt cm users id body now).1.status ≠ 200 ∧
      (putUser fmt cm users id body now).2 = users) ∨
    ∃ old new, rxTest uuidRegex id = true ∧ mapGet users id = some old ∧
      FieldsUpdated cm users body old new now ∧
      putUser fmt cm users id body now = (userUpdated new, mapWrite users id new) := by
  unfold putUser FieldsUpdated
  simp only []
  by_cases hid : rxTest uuidRegex id = true
  swap
  · left; simp [hid, badRequest]
  simp only [hid, Bool.not_true, Bool.false_eq_true, if_false]
  cases hget : mapGet users id with
  | none => left; simp [notFound]
  | some old =>
    simp only []
    cases hval : validateUser fmt [("name", getProp body "name"),
        ("email", getProp body "email"), ("age", getProp body "age")] true with
    | error f => left; simp [internalError]
    | ok v =>
      by_cases hv : v.valid = true
      swap
      · left; simp [hv, badRequest]
      obtain ⟨hn, he, ha, _⟩ := validateUser_valid fmt _ true v hval hv
      obtain ⟨g1, g2, g3⟩ := getProp_triple (getProp body "name") (getProp body "email")
        (getProp body "age")
      rw [g1] at hn; rw [g2] at he; rw [g3] at ha
      clear hval g1 g2 g3
      simp only [hv, Bool.not_true, Bool.false_eq_true, if_false]
      generalize getProp body "name" = name at *
      generalize getProp body "email" = email at *
      generalize getProp body "age" = age at *
      have hage : (age = JVal.undefined ∧ truthy age = false) ∨
          (isValidAge age = true ∧ truthy age = true) := by
        rcases ha with h | h
        · rw [isUndefined_iff] at h; subst h; left; exact ⟨rfl, rfl⟩
        · right; exact ⟨h, (truthy_of_isValidAge age h).1⟩
      have hname : (name = JVal.undefined) ∨
          (∃ n, name = JVal.str n ∧ isValidName (JVal.str n) = true) := by
        rcases hn with h | h
        · rw [isUndefined_iff] at h; left; exact h
        · obtain ⟨n, hn'⟩ := isValidName_str name h
          subst hn'
          right; exact ⟨n, rfl, h⟩
      have hemail : (email = JVal.undefined) ∨
          (∃ e, email = JVal.str e ∧ rxTest emailRegex e = true) ∨
          (∃ elems, email = JVal.arr elems) := by
        rcases he with h | h
        · rw [isUndefined_iff] at h; left; exact h
        · right; exact isValidEmail_true fmt email h
      clear hn he ha
      rcases hemail with he | ⟨e, he, hre⟩ | ⟨elems, he⟩
      · subst he
        rcases hname with hn | ⟨n, hn, hvn⟩
        · subst hn
          rcases hage with ⟨ha, hta⟩ | ⟨ha, hta⟩
          · subst ha
            refine Or.inr ⟨old, { id := old.id, name := old.name, email := old.email, age := old.age, createdAt := old.createdAt, updatedAt := now }, trivial, rfl,
              ⟨rfl, rfl, rfl, Or.inl ⟨rfl, rfl⟩, Or.inl ⟨rfl, rfl⟩, Or.inl ⟨rfl, rfl⟩⟩, ?_⟩
            simp [truthy_undefined, isUndefined, Except.map, userUpdated]
          · have hua := (truthy_of_isValidAge age ha).2
            refine Or.inr ⟨old, { id := old.id, name := old.name, email := old.email, age := age, createdAt := old.createdAt, updatedAt := now }, trivial, rfl,
              ⟨rfl, rfl, rfl, Or.inl ⟨rfl, rfl⟩, Or.inl ⟨rfl, rfl⟩, Or.inr ⟨ha, rfl⟩⟩, ?_⟩
            simp [truthy_undefined, isUndefined, Except.map, userUpdated, hta, hua]
        · subst hn
          have htn := truthy_of_isValidName n hvn
          rcases hage with ⟨ha, hta⟩ | ⟨ha, hta⟩
          · subst ha
            refine Or.inr ⟨old, { id := old.id, name := trimStr n, email := old.email, age := old.age, createdAt := old.createdAt, updatedAt := now }, trivial, rfl,
              ⟨rfl, rfl, rfl, Or.inr ⟨n, rfl, hvn, rfl⟩, Or.inl ⟨rfl, rfl⟩, Or.inl ⟨rfl, rfl⟩⟩, ?_⟩
            simp [truthy_undefined, isUndefined, Except.map, userUpdated, htn, jsTrim]
          · have hua := (truthy_of_isValidAge age ha).2
            refine Or.inr ⟨old, { id := old.id, name := trimStr n, email := old.email, age := age, createdAt := old.createdAt, updatedAt := now }, trivial, rfl,
              ⟨rfl, rfl, rfl, Or.inr ⟨n, rfl, hvn, rfl⟩, Or.inl ⟨rfl, rfl⟩, Or.inr ⟨ha, rfl⟩⟩, ?_⟩
            simp [truthy_undefined, isUndefined, Except.map, userUpdated, htn, jsTrim, hta, hua]
      · subst he
        have hte := truthy_of_email e hre
        by_cases hsame : cm.lower e = cm.lower old.email
        · have hcond : cm.lower e = cm.lower old.email ∨
              ∀ u ∈ mapValues users, cm.lower u.email ≠ cm.lower e := Or.inl hsame
          rcases hname with hn | ⟨n, hn, hvn⟩
          · subst hn
            rcases hage with ⟨ha, hta⟩ | ⟨ha, hta⟩
            · subst ha
              refine Or.inr ⟨old, { id := old.id, name := old.name, email := cm.lower e, age := old.age, createdAt := old.createdAt, updatedAt := now }, trivial, rfl,
                ⟨rfl, rfl, rfl, Or.inl ⟨rfl, rfl⟩, Or.inr ⟨e, rfl, hre, rfl, hcond⟩, Or.inl ⟨rfl, rfl⟩⟩, ?_⟩
              simp [truthy_undefined, isUndefined, Except.map, userUpdated, hte, jsToLowerCase, emailTaken_str, hsame]
            · have hua := (truthy_of_isValidAge age ha).2
              refine Or.inr ⟨old, { id := old.id, name := old.name, email := cm.lower e, age := age, createdAt := old.createdAt, updatedAt := now }, trivial, rfl,
                ⟨rfl, rfl, rfl, Or.inl ⟨rfl, rfl⟩, Or.inr ⟨e, rfl, hre, rfl, hcond⟩, Or.inr ⟨ha, rfl⟩⟩, ?_⟩
              simp [truthy_undefined, isUndefined, Except.map, userUpdated, hte, jsToLowerCase, emailTaken_str, hsame, hta, hua]
          · subst hn
            have htn := truthy_of_isValidName n hvn
            rcases hage with ⟨ha, hta⟩ | ⟨ha, hta⟩
            · subst ha
              refine Or.inr ⟨old, { id := old.id, name := trimStr n, email := cm.lower e, age := old.age, createdAt := old.createdAt, updatedAt := now }, trivial, rfl,
                ⟨rfl, rfl, rfl, Or.inr ⟨n, rfl, hvn, rfl⟩, Or.inr ⟨e, rfl, hre, rfl, hcond⟩, Or.inl ⟨rfl, rfl⟩⟩, ?_⟩
              simp [truthy_undefined, isUndefined, Except.map, userUpdated, htn, jsTrim, hte, jsToLowerCase, emailTaken_str, hsame]
            · have hua := (truthy_of_isValidAge age ha).2
              refine Or.inr ⟨old, { id := old.id, name := trimStr n, email := cm.lower e, age := age, createdAt := old.createdAt, updatedAt := now }, trivial, rfl,
                ⟨rfl, rfl, rfl, Or.inr ⟨n, rfl, hvn, rfl⟩, Or.inr ⟨e, rfl, hre, rfl, hcond⟩, Or.inr ⟨ha, rfl⟩⟩, ?_⟩
              simp [truthy_undefined, isUndefined, Except.map, userUpdated, htn, jsTrim, hte, jsToLowerCase, emailTaken_str, hsame, hta, hua]
        · cases hany : (mapValues users).any (fun u => cm.lower u.email == cm.lower e)
          · have hcond : cm.lower e = cm.lower old.email ∨
                ∀ u ∈ mapValues users, cm.lower u.email ≠ cm.lower e := by
              right; simpa using hany
            rcases hname with hn | ⟨n, hn, hvn⟩
            · subst hn
              rcases hage with ⟨ha, hta⟩ | ⟨ha, hta⟩
              · subst ha
                refine Or.inr ⟨old, { id := old.id, name := old.name, email := cm.lower e, age := old.age, createdAt := old.createdAt, updatedAt := now }, trivial, rfl,
                  ⟨rfl, rfl, rfl, Or.inl ⟨rfl, rfl⟩, Or.inr ⟨e, rfl, hre, rfl, hcond⟩, Or.inl ⟨rfl, rfl⟩⟩, ?_⟩
                simp [truthy_undefined, isUndefined, Except.map, userUpdated, hte, jsToLowerCase, emailTaken_str, hsame, hany]
              · have hua := (truthy_of_isValidAge age ha).2
                refine Or.inr ⟨old, { id := old.id, name := old.name, email := cm.lower e, age := age, createdAt := old.createdAt, updatedAt := now }, trivial, rfl,
                  ⟨rfl, rfl, rfl, Or.inl ⟨rfl, rfl⟩, Or.inr ⟨e, rfl, hre, rfl, hcond⟩, Or.inr ⟨ha, rfl⟩⟩, ?_⟩
                simp [truthy_undefined, isUndefined, Except.map, userUpdated, hte, jsToLowerCase, emailTaken_str, hsame, hany, hta, hua]
            · subst hn
              have htn := truthy_of_isValidName n hvn
              rcases hage with ⟨ha, hta⟩ | ⟨ha, hta⟩
              · subst ha
                refine Or.inr ⟨old, { id := old.id, name := trimStr n, email := cm.lower e, age := old.age, createdAt := old.createdAt, updatedAt := now }, trivial, rfl,
                  ⟨rfl, rfl, rfl, Or.inr ⟨n, rfl, hvn, rfl⟩, Or.inr ⟨e, rfl, hre, rfl, hcond⟩, Or.inl ⟨rfl, rfl⟩⟩, ?_⟩
                simp [truthy_undefined, isUndefined, Except.map, userUpdated, htn, jsTrim, hte, jsToLowerCase, emailTaken_str, hsame, hany]
              · have hua := (truthy_of_isValidAge age ha).2
                refine Or.inr ⟨old, { id := old.id, name := trimStr n, email := cm.lower e, age := age, createdAt := old.createdAt, updatedAt := now }, trivial, rfl,
                  ⟨rfl, rfl, rfl, Or.inr ⟨n, rfl, hvn, rfl⟩, Or.inr ⟨e, rfl, hre, rfl, hcond⟩, Or.inr ⟨ha, rfl⟩⟩, ?_⟩
                simp [truthy_undefined, isUndefined, Except.map, userUpdated, htn, jsTrim, hte, jsToLowerCase, emailTaken_str, hsame, hany, hta, hua]
          · left
            simp [hte, jsToLowerCase, emailTaken_str, hsame, hany, badRequest]
      · subst he
        left
        simp [truthy, jsToLowerCase, internalError]

/-- Every call of `PATCH /users/:id` either succeeds and rewrites the record under `id` as
`FieldsUpdated` says, or fails; a failing call leaves the map as it was, or has already
written the trimmed new name into the record. -/
theorem patchUser_spec (fmt : NumberFormat) (cm : CaseMap) (users : Store) (id : String)
    (updates : List (String × JVal)) (now : Nat) :
    ((patchUser fmt cm users id updates now).1.status ≠ 200 ∧
      ((patchUser fmt cm users id updates now).2 = users ∨
        ∃ old n, mapGet users id = some old ∧ getProp updates "name" = JVal.str n ∧
          isValidName (JVal.str n) = true ∧
          (patchUser fmt cm users id updates now).2 =
            mapWrite users id { old with name := trimStr n })) ∨
    ∃ old new, rxTest uuidRegex id = true ∧ mapGet users id = some old ∧
      FieldsUpdated cm users updates old new now ∧
      patchUser fmt cm users id updates now = (userUpdated new, mapWrite users id new) := by
  unfold patchUser FieldsUpdated
  by_cases hid : rxTest uuidRegex id = true
  swap
  · left; simp [hid, badRequest]
  simp only [hid, Bool.not_true, Bool.false_eq_true, if_false]
  cases hget : mapGet users id with
  | none => left; simp [notFound]
  | some old =>
    simp only []
    cases hval : validateUser fmt updates true with
    | error f => left; simp [internalError]
    | ok v =>
      by_cases hv : v.valid = true
      swap
      · left; simp [hv, badRequest]
      obtain ⟨hn, he, ha, _⟩ := validateUser_valid fmt _ true v hval hv
      clear hval
      simp only [hv, Bool.not_true, Bool.false_eq_true, if_false]
      generalize getProp updates "name" = name at *
      generalize getProp updates "email" = email at *
      generalize getProp updates "age" = age at *
      have hage : (age = JVal.undefined) ∨
          (isValidAge age = true ∧ isUndefined age = false) := by
        rcases ha with h | h
        · rw [isUndefined_iff] at h; left; exact h
        · right; exact ⟨h, (truthy_of_isValidAge age h).2⟩
      have hname : (name = JVal.undefined) ∨
          (∃ n, name = JVal.str n ∧ isValidName (JVal.str n) = true) := by
        rcases hn with h | h
        · rw [isUndefined_iff] at h; left; exact h
        · obtain ⟨n, hn'⟩ := isValidName_str name h
          subst hn'
          right; exact ⟨n, rfl, h⟩
      have hemail : (email = JVal.undefined) ∨
          (∃ e, email = JVal.str e ∧ rxTest emailRegex e = true) ∨
          (∃ elems, email = JVal.arr elems) := by
        rcases he with h | h
        · rw [isUndefined_iff] at h; left; exact h
        · right; exact isValidEmail_true fmt email h
      have hself := mapWrite_self users id old hget
      have hscan : ∀ (e : String) (u1 : User), u1.email = old.email →
          (mapValues (mapWrite users id u1)).any (fun u => cm.lower u.email == cm.lower e) =
            (mapValues users).any (fun u => cm.lower u.email == cm.lower e) :=
        fun e u1 h1 => any_email_congr e _ _ (emails_mapWrite users id old u1 hget h1)
      clear hn he ha
      rcases hemail with he | ⟨e, he, hre⟩ | ⟨elems, he⟩
      · subst he
        rcases hname with hn | ⟨n, hn, hvn⟩
        · subst hn
          rcases hage with ha | ⟨ha, hua⟩
          · subst ha
            refine Or.inr ⟨old, { id := old.id, name := old.name, email := old.email, age := old.age, createdAt := old.createdAt, updatedAt := now }, trivial, rfl,
              ⟨rfl, rfl, rfl, Or.inl ⟨rfl, rfl⟩, Or.inl ⟨rfl, rfl⟩, Or.inl ⟨rfl, rfl⟩⟩, ?_⟩
            simp [isUndefined_undefined, isUndefined_str, isUndefined_arr, Except.map, userUpdated]
          · refine Or.inr ⟨old, { id := old.id, name := old.name, email := old.email, age := age, createdAt := old.createdAt, updatedAt := now }, trivial, rfl,
              ⟨rfl, rfl, rfl, Or.inl ⟨rfl, rfl⟩, Or.inl ⟨rfl, rfl⟩, Or.inr ⟨ha, rfl⟩⟩, ?_⟩
            simp [isUndefined_undefined, isUndefined_str, isUndefined_arr, Except.map, userUpdated, hua]
        · subst hn
          rcases hage with ha | ⟨ha, hua⟩
          · subst ha
            refine Or.inr ⟨old, { id := old.id, name := trimStr n, email := old.email, age := old.age, createdAt := old.createdAt, updatedAt := now }, trivial, rfl,
              ⟨rfl, rfl, rfl, Or.inr ⟨n, rfl, hvn, rfl⟩, Or.inl ⟨rfl, rfl⟩, Or.inl ⟨rfl, rfl⟩⟩, ?_⟩
            simp [isUndefined_undefined, isUndefined_str, isUndefined_arr, Except.map, userUpdated, jsTrim]
          · refine Or.inr ⟨old, { id := old.id, name := trimStr n, email := old.email, age := age, createdAt := old.createdAt, updatedAt := now }, trivial, rfl,
              ⟨rfl, rfl, rfl, Or.inr ⟨n, rfl, hvn, rfl⟩, Or.inl ⟨rfl, rfl⟩, Or.inr ⟨ha, rfl⟩⟩, ?_⟩
            simp [isUndefined_undefined, isUndefined_str, isUndefined_arr, Except.map, userUpdated, jsTrim, hua]
      · subst he
        by_cases hsame : cm.lower e = cm.lower old.email
        · have hcond : cm.lower e = cm.lower old.email ∨
              ∀ u ∈ mapValues users, cm.lower u.email ≠ cm.lower e := Or.inl hsame
          rcases hname with hn | ⟨n, hn, hvn⟩
          · subst hn
            rcases hage with ha | ⟨ha, hua⟩
            · subst ha
              refine Or.inr ⟨old, { id := old.id, name := old.name, email := cm.lower e, age := old.age, createdAt := old.createdAt, updatedAt := now }, trivial, rfl,
                ⟨rfl, rfl, rfl, Or.inl ⟨rfl, rfl⟩, Or.inr ⟨e, rfl, hre, rfl, hcond⟩, Or.inl ⟨rfl, rfl⟩⟩, ?_⟩
              simp [isUndefined_undefined, isUndefined_str, isUndefined_arr, Except.map, userUpdated, jsToLowerCase, emailTaken_str, hscan, hself, hsame]
            · refine Or.inr ⟨old, { id := old.id, name := old.name, email := cm.lower e, age := age, createdAt := old.createdAt, updatedAt := now }, trivial, rfl,
                ⟨rfl, rfl, rfl, Or.inl ⟨rfl, rfl⟩, Or.inr ⟨e, rfl, hre, rfl, hcond⟩, Or.inr ⟨ha, rfl⟩⟩, ?_⟩
              simp [isUndefined_undefined, isUndefined_str, isUndefined_arr, Except.map, userUpdated, jsToLowerCase, emailTaken_str, hscan, hself, hsame, hua]
          · subst hn
            rcases hage with ha | ⟨ha, hua⟩
            · subst ha
              refine Or.inr ⟨old, { id := old.id, name := trimStr n, email := cm.lower e, age := old.age, createdAt := old.createdAt, updatedAt := now }, trivial, rfl,
                ⟨rfl, rfl, rfl, Or.inr ⟨n, rfl, hvn, rfl⟩, Or.inr ⟨e, rfl, hre, rfl, hcond⟩, Or.inl ⟨rfl, rfl⟩⟩, ?_⟩
              simp [isUndefined_undefined, isUndefined_str, isUndefined_arr, Except.map, userUpdated, jsTrim, jsToLowerCase, emailTaken_str, hscan, hself, hsame]
            · refine Or.inr ⟨old, { id := old.id, name := trimStr n, email := cm.lower e, age := age, createdAt := old.createdAt, updatedAt := now }, trivial, rfl,
                ⟨rfl, rfl, rfl, Or.inr ⟨n, rfl, hvn, rfl⟩, Or.inr ⟨e, rfl, hre, rfl, hcond⟩, Or.inr ⟨ha, rfl⟩⟩, ?_⟩
              simp [isUndefined_undefined, isUndefined_str, isUndefined_arr, Except.map, userUpdated, jsTrim, jsToLowerCase, emailTaken_str, hscan, hself, hsame, hua]
        · cases hany : (mapValues users).any (fun u => cm.lower u.email == cm.lower e)
          · have hcond : cm.lower e = cm.lower old.email ∨
                ∀ u ∈ mapValues users, cm.lower u.email ≠ cm.lower e := by
              right; simpa using hany
            rcases hname with hn | ⟨n, hn, hvn⟩
            · subst hn
              rcases hage with ha | ⟨ha, hua⟩
              · subst ha
                refine Or.inr ⟨old, { id := old.id, name := old.name, email := cm.lower e, age := old.age, createdAt := old.createdAt, updatedAt := now }, trivial, rfl,
                  ⟨rfl, rfl, rfl, Or.inl ⟨rfl, rfl⟩, Or.inr ⟨e, rfl, hre, rfl, hcond⟩, Or.inl ⟨rfl, rfl⟩⟩, ?_⟩
                simp [isUndefined_undefined, isUndefined_str, isUndefined_arr, Except.map, userUpdated, jsToLowerCase, emailTaken_str, hscan, hself, hsame, hany]
              · refine Or.inr ⟨old, { id := old.id, name := old.name, email := cm.lower e, age := age, createdAt := old.createdAt, updatedAt := now }, trivial, rfl,
                  ⟨rfl, rfl, rfl, Or.inl ⟨rfl, rfl⟩, Or.inr ⟨e, rfl, hre, rfl, hcond⟩, Or.inr ⟨ha, rfl⟩⟩, ?_⟩
                simp [isUndefined_undefined, isUndefined_str, isUndefined_arr, Except.map, userUpdated, jsToLowerCase, emailTaken_str, hscan, hself, hsame, hany, hua]
            · subst hn
              rcases hage with ha | ⟨ha, hua⟩
              · subst ha
                refine Or.inr ⟨old, { id := old.id, name := trimStr n, email := cm.lower e, age := old.age, createdAt := old.createdAt, updatedAt := now }, trivial, rfl,
                  ⟨rfl, rfl, rfl, Or.inr ⟨n, rfl, hvn, rfl⟩, Or.inr ⟨e, rfl, hre, rfl, hcond⟩, Or.inl ⟨rfl, rfl⟩⟩, ?_⟩
                simp [isUndefined_undefined, isUndefined_str, isUndefined_arr, Except.map, userUpdated, jsTrim, jsToLowerCase, emailTaken_str, hscan, hself, hsame, hany]
              · refine Or.inr ⟨old, { id := old.id, name := trimStr n, email := cm.lower e, age := age, createdAt := old.createdAt, updatedAt := now }, trivial, rfl,
                  ⟨rfl, rfl, rfl, Or.inr ⟨n, rfl, hvn, rfl⟩, Or.inr ⟨e, rfl, hre, rfl, hcond⟩, Or.inr ⟨ha, rfl⟩⟩, ?_⟩
                simp [isUndefined_undefined, isUndefined_str, isUndefined_arr, Except.map, userUpdated, jsTrim, jsToLowerCase, emailTaken_str, hscan, hself, hsame, hany, hua]
          · rcases hname with hn | ⟨n, hn, hvn⟩
            · subst hn
              refine Or.inl ⟨?_, Or.inl ?_⟩ <;>
                simp [isUndefined_undefined, isUndefined_str, isUndefined_arr, Except.map, jsTrim, jsToLowerCase, emailTaken_str, hscan, hself, hsame, hany, badRequest]
            · subst hn
              refine Or.inl ⟨?_, Or.inr ⟨old, n, rfl, rfl, hvn, ?_⟩⟩ <;>
                simp [isUndefined_undefined, isUndefined_str, isUndefined_arr, Except.map, jsTrim, jsToLowerCase, emailTaken_str, hscan, hself, hsame, hany, badRequest]
      · subst he
        rcases hname with hn | ⟨n, hn, hvn⟩
        · subst hn
          refine Or.inl ⟨?_, Or.inl ?_⟩ <;>
            simp [isUndefined_undefined, isUndefined_str, isUndefined_arr, Except.map, jsTrim, jsToLowerCase, emailTaken_str, hscan, hself, internalError]
        · subst hn
          refine Or.inl ⟨?_, Or.inr ⟨old, n, rfl, rfl, hvn, ?_⟩⟩ <;>
            simp [isUndefined_undefined, isUndefined_str, isUndefined_arr, Except.map, jsTrim, jsToLowerCase, emailTaken_str, hscan, hself, internalError]

theorem emailTaken_arr (cm : CaseMap) (elems : List JVal) (l : List User) :
    emailTaken cm (JVal.arr elems) l = Except.ok false ∨
      emailTaken cm (JVal.arr elems) l = Except.error Fault.typeError := by
  cases l with
  | nil => left; rfl
  | cons u t => right; rfl

/-- Every call of `POST /users` either fails and leaves the map as it was, or stores under the
generated id the record made of the trimmed name, the lower-cased email and the age. -/
theorem postUsers_spec (fmt : NumberFormat) (cm : CaseMap) (users : Store) (body : List (String × JVal))
    (userId : String) (t1 t2 : Nat) :
    ((postUsers fmt cm users body userId t1 t2).1.status ≠ 201 ∧
      (postUsers fmt cm users body userId t1 t2).2 = users) ∨
    ∃ n e, getProp body "name" = JVal.str n ∧ getProp body "email" = JVal.str e ∧
      isValidName (JVal.str n) = true ∧ rxTest emailRegex e = true ∧
      isValidAge (getProp body "age") = true ∧
      (∀ u ∈ mapValues users, cm.lower u.email ≠ cm.lower e) ∧
      postUsers fmt cm users body userId t1 t2 =
        (userCreated
          { id := userId, name := trimStr n, email := cm.lower e,
            age := getProp body "age", createdAt := t1, updatedAt := t2 },
         mapSet users userId
          { id := userId, name := trimStr n, email := cm.lower e,
            age := getProp body "age", createdAt := t1, updatedAt := t2 }) := by
  unfold postUsers
  simp only []
  cases hval : validateUser fmt [("name", getProp body "name"),
      ("email", getProp body "email"), ("age", getProp body "age")] false with
  | error f => left; simp [internalError]
  | ok v =>
    by_cases hv : v.valid = true
    swap
    · left; simp [hv, badRequest]
    obtain ⟨hn, he, ha, ht⟩ := validateUser_valid fmt _ false v hval hv
    obtain ⟨g1, g2, g3⟩ := getProp_triple (getProp body "name") (getProp body "email")
      (getProp body "age")
    rw [g1, g2, g3] at ht
    rw [g1] at hn; rw [g2] at he; rw [g3] at ha
    obtain ⟨ht1, ht2, ht3⟩ := ht rfl
    clear hval g1 g2 g3 ht
    simp only [hv, Bool.not_true, Bool.false_eq_true, if_false]
    generalize getProp body "name" = name at *
    generalize getProp body "email" = email at *
    generalize getProp body "age" = age at *
    have hage : isValidAge age = true := by
      rcases ha with h | h
      · rw [isUndefined_iff] at h; subst h; cases ht3
      · exact h
    have hname : ∃ n, name = JVal.str n ∧ isValidName (JVal.str n) = true := by
      rcases hn with h | h
      · rw [isUndefined_iff] at h; subst h; cases ht1
      · obtain ⟨n, hn'⟩ := isValidName_str name h
        subst hn'
        exact ⟨n, rfl, h⟩
    have hemail : (∃ e, email = JVal.str e ∧ rxTest emailRegex e = true) ∨
        (∃ elems, email = JVal.arr elems) := by
      rcases he with h | h
      · rw [isUndefined_iff] at h; subst h; cases ht2
      · exact isValidEmail_true fmt email h
    clear hn he ha ht1 ht2 ht3
    obtain ⟨n, hn, hvn⟩ := hname
    subst hn
    rcases hemail with ⟨e, he, hre⟩ | ⟨elems, he⟩
    · subst he
      cases hany : (mapValues users).any (fun u => cm.lower u.email == cm.lower e)
      · have hcond : ∀ u ∈ mapValues users, cm.lower u.email ≠ cm.lower e := by
          simpa using hany
        refine Or.inr ⟨n, e, rfl, rfl, hvn, hre, hage, hcond, ?_⟩
        simp [emailTaken_str, hany, jsTrim, jsToLowerCase]
      · left
        simp [emailTaken_str, hany, badRequest]
    · subst he
      left
      rcases emailTaken_arr cm elems (mapValues users) with h | h
      · simp [h, jsTrim, jsToLowerCase, internalError]
      · simp [h, internalError]

theorem deleteUser_spec (users : Store) (id : String) :
    (deleteUser users id).2 = users ∨ (deleteUser users id).2 = mapDelete users id := by
  unfold deleteUser
  split
  · left; rfl
  · split
    · left; rfl
    · right; rfl

/-! ## Lemmas on what the map holds after a write -/

theorem mapGet_mem (users : Store) (id : String) (old : User)
    (h : mapGet users id = some old) : (id, old) ∈ users := by
  induction users with
  | nil => cases h
  | cons p rest ih =>
    obtain ⟨k, v⟩ := p
    by_cases hk : k = id
    · simp only [mapGet, hk, if_true, Option.some.injEq] at h
      simp [hk, h]
    · simp only [mapGet, hk, if_false] at h
      exact List.mem_cons_of_mem _ (ih h)

theorem mem_mapWrite (users : Store) (id : String) (new : User) (p : String × User)
    (h : p ∈ mapWrite users id new) : p ∈ users ∨ p = (id, new) := by
  induction users with
  | nil => cases h
  | cons q rest ih =>
    obtain ⟨k, v⟩ := q
    by_cases hk : k = id
    · simp only [mapWrite, hk, if_true, List.mem_cons] at h
      rcases h with h | h
      · right; exact h
      · left; exact List.mem_cons_of_mem _ h
    · simp only [mapWrite, hk, if_false, List.mem_cons] at h
      rcases h with h | h
      · left; rw [h]; exact List.mem_cons_self _ _
      · rcases ih h with h' | h'
        · left; exact List.mem_cons_of_mem _ h'
        · right; exact h'

theorem mem_mapSet (users : Store) (id : String) (new : User) (p : String × User)
    (h : p ∈ mapSet users id new) : p ∈ users ∨ p = (id, new) := by
  induction users with
  | nil =>
    simp only [mapSet, List.mem_singleton] at h
    right; exact h
  | cons q rest ih =>
    obtain ⟨k, v⟩ := q
    by_cases hk : k = id
    · simp only [mapSet, hk, if_true, List.mem_cons] at h
      rcases h with h | h
      · right; exact h
      · left; exact List.mem_cons_of_mem _ h
    · simp only [mapSet, hk, if_false, List.mem_cons] at h
      rcases h with h | h
      · left; rw [h]; exact List.mem_cons_self _ _
      · rcases ih h with h' | h'
        · left; exact List.mem_cons_of_mem _ h'
        · right; exact h'

theorem mapDelete_sublist (users : Store) (id : String) :
    (mapDelete users id).Sublist users := by
  induction users with
  | nil => exact List.Sublist.refl _
  | cons q rest ih =>
    obtain ⟨k, v⟩ := q
    by_cases hk : k = id
    · simp only [mapDelete, hk, if_true]
      exact List.sublist_cons_self _ _
    · simp only [mapDelete, hk, if_false]
      exact ih.cons₂ _

theorem pairwise_mapWrite {cm : CaseMap} (users : Store) (id : String) (old new : User)
    (hp : users.Pairwise (fun a b => cm.lower a.2.email ≠ cm.lower b.2.email))
    (hget : mapGet users id = some old)
    (h : cm.lower new.email = cm.lower old.email ∨
      ∀ u ∈ mapValues users, cm.lower u.email ≠ cm.lower new.email) :
    (mapWrite users id new).Pairwise (fun a b => cm.lower a.2.email ≠ cm.lower b.2.email) := by
  induction users with
  | nil => exact List.Pairwise.nil
  | cons q rest ih =>
    obtain ⟨k, v⟩ := q
    rw [List.pairwise_cons] at hp
    obtain ⟨hhead, htail⟩ := hp
    by_cases hk : k = id
    · simp only [mapGet, hk, if_true, Option.some.injEq] at hget
      simp only [mapWrite, hk, if_true]
      rw [List.pairwise_cons]
      refine ⟨?_, htail⟩
      intro p hpm
      rcases h with h | h
      · rw [h, ← hget]
        exact hhead p hpm
      · have := h p.2 (by
          simp only [mapValues, List.map_cons, List.mem_cons, List.mem_map]
          exact Or.inr ⟨p, hpm, rfl⟩)
        exact fun heq => this heq.symm
    · simp only [mapGet, hk, if_false] at hget
      simp only [mapWrite, hk, if_false]
      rw [List.pairwise_cons]
      constructor
      · intro p hpm
        rcases mem_mapWrite rest id new p hpm with hin | heq
        · exact hhead p hin
        · rw [heq]
          rcases h with h | h
          · show cm.lower v.email ≠ cm.lower new.email
            rw [h]
            exact hhead (id, old) (mapGet_mem rest id old hget)
          · exact h v (by simp [mapValues])
      · refine ih htail hget ?_
        rcases h with h | h
        · exact Or.inl h
        · right
          intro u hu
          refine h u ?_
          simp only [mapValues, List.map_cons, List.mem_cons]
          exact Or.inr hu

theorem pairwise_mapSet {cm : CaseMap} (users : Store) (id : String) (new : User)
    (hp : users.Pairwise (fun a b => cm.lower a.2.email ≠ cm.lower b.2.email))
    (h : ∀ u ∈ mapValues users, cm.lower u.email ≠ cm.lower new.email) :
    (mapSet users id new).Pairwise (fun a b => cm.lower a.2.email ≠ cm.lower b.2.email) := by
  induction users with
  | nil => simp [mapSet]
  | cons q rest ih =>
    obtain ⟨k, v⟩ := q
    rw [List.pairwise_cons] at hp
    obtain ⟨hhead, htail⟩ := hp
    have hrest : ∀ u ∈ mapValues rest, cm.lower u.email ≠ cm.lower new.email := by
      intro u hu
      refine h u ?_
      simp only [mapValues, List.map_cons, List.mem_cons]
      exact Or.inr hu
    by_cases hk : k = id
    · simp only [mapSet, hk, if_true]
      rw [List.pairwise_cons]
      refine ⟨?_, htail⟩
      intro p hpm
      have := hrest p.2 (by
        simp only [mapValues, List.mem_map]
        exact ⟨p, hpm, rfl⟩)
      exact fun heq => this heq.symm
    · simp only [mapSet, hk, if_false]
      rw [List.pairwise_cons]
      constructor
      · intro p hpm
        rcases mem_mapSet rest id new p hpm with hin | heq
        · exact hhead p hin
        · rw [heq]
          exact h v (by simp [mapValues])
      · exact ih htail hrest

/-- The email clause of `FieldsUpdated`, as the map invariant needs it. -/
theorem FieldsUpdated.email_ok {cm : CaseMap} {users : Store} {body : List (String × JVal)} {old new : User}
    {now : Nat} (h : FieldsUpdated cm users body old new now) :
    cm.lower new.email = cm.lower old.email ∨
      ∀ u ∈ mapValues users, cm.lower u.email ≠ cm.lower new.email := by
  obtain ⟨_, _, _, _, he, _⟩ := h
  rcases he with ⟨_, he⟩ | ⟨e, _, _, he, hc⟩
  · left; rw [he]
  · rw [he, cm.idem]
    exact hc

/-- One request keeps the lower-cased emails of the map pairwise different. -/
theorem emails_step (fmt : NumberFormat) (cm : CaseMap) (users : Store)
    (hp : users.Pairwise (fun a b => cm.lower a.2.email ≠ cm.lower b.2.email)) :
    (∀ body userId t1 t2, (postUsers fmt cm users body userId t1 t2).2.Pairwise
      (fun a b => cm.lower a.2.email ≠ cm.lower b.2.email)) ∧
    (∀ id body now, (putUser fmt cm users id body now).2.Pairwise
      (fun a b => cm.lower a.2.email ≠ cm.lower b.2.email)) ∧
    (∀ id updates now, (patchUser fmt cm users id updates now).2.Pairwise
      (fun a b => cm.lower a.2.email ≠ cm.lower b.2.email)) ∧
    (∀ id, (deleteUser users id).2.Pairwise
      (fun a b => cm.lower a.2.email ≠ cm.lower b.2.email)) := by
  refine ⟨?_, ?_, ?_, ?_⟩
  · intro body userId t1 t2
    rcases postUsers_spec fmt cm users body userId t1 t2 with ⟨_, h⟩ | ⟨n, e, _, _, _, _, _, hc, h⟩
    · rw [h]; exact hp
    · rw [h]
      refine pairwise_mapSet users userId _ hp ?_
      intro u hu
      show cm.lower u.email ≠ cm.lower (cm.lower e)
      rw [cm.idem]
      exact hc u hu
  · intro id body now
    rcases putUser_spec fmt cm users id body now with ⟨_, h⟩ | ⟨old, new, _, hget, hf, h⟩
    · rw [h]; exact hp
    · rw [h]
      exact pairwise_mapWrite users id old new hp hget hf.email_ok
  · intro id updates now
    rcases patchUser_spec fmt cm users id updates now with
      ⟨_, h | ⟨old, n, hget, _, _, h⟩⟩ | ⟨old, new, _, hget, hf, h⟩
    · rw [h]; exact hp
    · rw [h]
      exact pairwise_mapWrite users id old _ hp hget (Or.inl rfl)
    · rw [h]
      exact pairwise_mapWrite users id old new hp hget hf.email_ok
  · intro id
    rcases deleteUser_spec users id with h | h
    · rw [h]; exact hp
    · rw [h]
      exact hp.sublist (mapDelete_sublist users id)

/-! ## C1: email uniqueness -/

/-- C1. In every map the server can reach from the empty map by `POST`, `PUT`, `PATCH` and
`DELETE` requests with any inputs, two different entries never hold emails that are equal
after lower-casing. -/
theorem emails_unique_of_reachable (fmt : NumberFormat) (cm : CaseMap) (users : Store)
    (h : Reachable fmt cm users) :
    users.Pairwise (fun a b => cm.lower a.2.email ≠ cm.lower b.2.email) := by
  induction h with
  | init => exact List.Pairwise.nil
  | post _ body userId t1 t2 ih => exact (emails_step fmt cm _ ih).1 body userId t1 t2
  | put _ id body now ih => exact (emails_step fmt cm _ ih).2.1 id body now
  | patch _ id updates now ih => exact (emails_step fmt cm _ ih).2.2.1 id updates now
  | delete _ id ih => exact (emails_step fmt cm _ ih).2.2.2 id

theorem sampleStore_reachable : Reachable plainFormat asciiCase sampleStore :=
  Reachable.post (Reachable.post Reachable.init aliceBody idA 1 1) bobBody idB 2 2

/-- C1, at the map holding Alice and Bob. -/
theorem emails_unique_of_reachable_witness :
    Reachable plainFormat asciiCase sampleStore ∧
      sampleStore.Pairwise (fun a b => asciiCase.lower a.2.email ≠ asciiCase.lower b.2.email) :=
  ⟨sampleStore_reachable,
    emails_unique_of_reachable plainFormat asciiCase sampleStore sampleStore_reachable⟩

/-! ## C8: validity of the stored fields -/

theorem isValidEmail_str (fmt : NumberFormat) (x : String) :
    isValidEmail fmt (JVal.str x) = Except.ok (rxTest emailRegex x) := rfl

theorem FieldsUpdated.valid {fmt : NumberFormat} {cm : CaseMap} {users : Store}
    {body : List (String × JVal)} {old new : User} {now : Nat}
    (h : FieldsUpdated cm users body old new now) (hv : ValidUser fmt old) :
    ValidUser fmt new := by
  obtain ⟨_, _, _, hn, he, ha⟩ := h
  obtain ⟨v1, v2, v3⟩ := hv
  refine ⟨?_, ?_, ?_⟩
  · rcases hn with ⟨_, hn⟩ | ⟨n, _, hvn, hn⟩
    · rw [hn]; exact v1
    · rw [hn]; exact isValidName_trimStr n hvn
  · rcases he with ⟨_, he⟩ | ⟨e, _, hre, he, _⟩
    · rw [he]; exact v2
    · rw [he, isValidEmail_str, rxTest_email_lower cm e hre]
  · rcases ha with ⟨_, ha⟩ | ⟨hva, ha⟩
    · rw [ha]; exact v3
    · rw [ha]; exact hva

/-- One request keeps every stored record valid. -/
theorem valid_step (fmt : NumberFormat) (cm : CaseMap) (users : Store)
    (hp : ∀ p ∈ users, ValidUser fmt p.2) :
    (∀ body userId t1 t2, ∀ p ∈ (postUsers fmt cm users body userId t1 t2).2,
      ValidUser fmt p.2) ∧
    (∀ id body now, ∀ p ∈ (putUser fmt cm users id body now).2, ValidUser fmt p.2) ∧
    (∀ id updates now, ∀ p ∈ (patchUser fmt cm users id updates now).2, ValidUser fmt p.2) ∧
    (∀ id, ∀ p ∈ (deleteUser users id).2, ValidUser fmt p.2) := by
  refine ⟨?_, ?_, ?_, ?_⟩
  · intro body userId t1 t2 p hpm
    rcases postUsers_spec fmt cm users body userId t1 t2 with
      ⟨_, h⟩ | ⟨n, e, _, _, hvn, hre, hva, _, h⟩
    · rw [h] at hpm; exact hp p hpm
    · rw [h] at hpm
      rcases mem_mapSet users userId _ p hpm with hin | heq
      · exact hp p hin
      · rw [heq]
        exact ⟨isValidName_trimStr n hvn,
          by simp only [isValidEmail_str, rxTest_email_lower cm e hre], hva⟩
  · intro id body now p hpm
    rcases putUser_spec fmt cm users id body now with ⟨_, h⟩ | ⟨old, new, _, hget, hf, h⟩
    · rw [h] at hpm; exact hp p hpm
    · rw [h] at hpm
      rcases mem_mapWrite users id new p hpm with hin | heq
      · exact hp p hin
      · rw [heq]
        exact hf.valid (hp _ (mapGet_mem users id old hget))
  · intro id updates now p hpm
    rcases patchUser_spec fmt cm users id updates now with
      ⟨_, h | ⟨old, n, hget, _, hvn, h⟩⟩ | ⟨old, new, _, hget, hf, h⟩
    · rw [h] at hpm; exact hp p hpm
    · rw [h] at hpm
      rcases mem_mapWrite users id _ p hpm with hin | heq
      · exact hp p hin
      · rw [heq]
        obtain ⟨_, v2, v3⟩ := hp _ (mapGet_mem users id old hget)
        exact ⟨isValidName_trimStr n hvn, v2, v3⟩
    · rw [h] at hpm
      rcases mem_mapWrite users id new p hpm with hin | heq
      · exact hp p hin
      · rw [heq]
        exact hf.valid (hp _ (mapGet_mem users id old hget))
  · intro id p hpm
    rcases deleteUser_spec users id with h | h
    · rw [h] at hpm; exact hp p hpm
    · rw [h] at hpm
      exact hp p ((mapDelete_sublist users id).subset hpm)

/-- C8. In every map the server can reach from the empty map, the stored name of every
record passes `isValidName`, its stored email passes `isValidEmail` and its stored age passes
`isValidAge`. -/
theorem stored_fields_valid_of_reachable (fmt : NumberFormat) (cm : CaseMap) (users : Store)
    (h : Reachable fmt cm users) :
    ∀ p ∈ users, isValidName (JVal.str p.2.name) = true ∧
      isValidEmail fmt (JVal.str p.2.email) = Except.ok true ∧
      isValidAge p.2.age = true := by
  induction h with
  | init => intro p hpm; cases hpm
  | post _ body userId t1 t2 ih => exact (valid_step fmt cm _ ih).1 body userId t1 t2
  | put _ id body now ih => exact (valid_step fmt cm _ ih).2.1 id body now
  | patch _ id updates now ih => exact (valid_step fmt cm _ ih).2.2.1 id updates now
  | delete _ id ih => exact (valid_step fmt cm _ ih).2.2.2 id

/-- C8, at the map holding Alice and Bob. -/
theorem stored_fields_valid_of_reachable_witness :
    Reachable plainFormat asciiCase sampleStore ∧
      ∀ p ∈ sampleStore, isValidName (JVal.str p.2.name) = true ∧
        isValidEmail plainFormat (JVal.str p.2.email) = Except.ok true ∧
        isValidAge p.2.age = true :=
  ⟨sampleStore_reachable,
    stored_fields_valid_of_reachable plainFormat asciiCase sampleStore sampleStore_reachable⟩

/-! ## C2: a rejected `PATCH` -/

/-- C2. `PATCH` on Alice with a new name and the email of Bob is rejected with 400
`Email already exists`, yet the map then holds the new name for Alice: the name is written
before the email is checked. -/
theorem patch_rejected_after_name_write :
    (patchUser plainFormat asciiCase sampleStore idA zedBody 5).1.status = 400 ∧
    (patchUser plainFormat asciiCase sampleStore idA zedBody 5).1.text = "Email already exists" ∧
    (mapGet sampleStore idA).map (fun u => u.name) = some "Alice" ∧
    (mapGet (patchUser plainFormat asciiCase sampleStore idA zedBody 5).2 idA).map (fun u => u.name) =
      some "Zed" := by
  decide

/-! ## C3: a rejected `PUT` -/

/-- C3. Whenever `PUT /users/:id` does not answer 200 (malformed id, unknown id, invalid input,
duplicate email, or a fault), the map after the call is the map before it. -/
theorem put_failure_leaves_map (fmt : NumberFormat) (cm : CaseMap) (users : Store) (id : String)
    (body : List (String × JVal)) (now : Nat)
    (h : (putUser fmt cm users id body now).1.status ≠ 200) :
    (putUser fmt cm users id body now).2 = users := by
  rcases putUser_spec fmt cm users id body now with ⟨_, h'⟩ | ⟨old, new, _, _, _, heq⟩
  · exact h'
  · rw [heq] at h
    exact absurd rfl h

/-- C3, at the `PUT` on Alice with a new name and the email of Bob. -/
theorem put_failure_leaves_map_witness :
    (putUser plainFormat asciiCase sampleStore idA zedBody 5).1.status ≠ 200 ∧
      (putUser plainFormat asciiCase sampleStore idA zedBody 5).2 = sampleStore :=
  ⟨by decide, put_failure_leaves_map plainFormat asciiCase sampleStore idA zedBody 5 (by decide)⟩

/-! ## C4: `PUT` against `PATCH` -/

/-- C4. On the same map, id and body (a new name and the email of Bob) `PUT` and `PATCH` both
answer 400 `Email already exists`, but `PUT` leaves the name of Alice and `PATCH` leaves the
new name. -/
theorem put_and_patch_leave_different_maps :
    (putUser plainFormat asciiCase sampleStore idA zedBody 5).1.status = 400 ∧
    (patchUser plainFormat asciiCase sampleStore idA zedBody 5).1.status = 400 ∧
    (mapGet (putUser plainFormat asciiCase sampleStore idA zedBody 5).2 idA).map (fun u => u.name) =
      some "Alice" ∧
    (mapGet (patchUser plainFormat asciiCase sampleStore idA zedBody 5).2 idA).map (fun u => u.name) =
      some "Zed" := by
  decide

theorem validateUser_triple (fmt : NumberFormat) (body : List (String × JVal))
    (isUpdate : Bool) :
    validateUser fmt [("name", getProp body "name"), ("email", getProp body "email"),
      ("age", getProp body "age")] isUpdate = validateUser fmt body isUpdate := by
  obtain ⟨g1, g2, g3⟩ := getProp_triple (getProp body "name") (getProp body "email")
    (getProp body "age")
  unfold validateUser
  rw [g1, g2, g3]

/-- What `PUT` and `PATCH` do have in common: on the same map, id and body they send the same
response, and when that response is the 200 they leave the same map. -/
theorem put_patch_agree (fmt : NumberFormat) (cm : CaseMap) (users : Store) (id : String)
    (body : List (String × JVal)) (now : Nat) :
    (putUser fmt cm users id body now).1 = (patchUser fmt cm users id body now).1 ∧
    ((putUser fmt cm users id body now).1.status = 200 →
      (putUser fmt cm users id body now).2 = (patchUser fmt cm users id body now).2) := by
  unfold putUser patchUser
  simp only [validateUser_triple]
  by_cases hid : rxTest uuidRegex id = true
  swap
  · simp [hid]
  simp only [hid, Bool.not_true, Bool.false_eq_true, if_false]
  cases hget : mapGet users id with
  | none => simp
  | some old =>
    simp only []
    cases hval : validateUser fmt body true with
    | error f => simp
    | ok v =>
      by_cases hv : v.valid = true
      swap
      · simp [hv]
      obtain ⟨hn, he, ha, _⟩ := validateUser_valid fmt _ true v hval hv
      clear hval
      simp only [hv, Bool.not_true, Bool.false_eq_true, if_false]
      generalize getProp body "name" = name at *
      generalize getProp body "email" = email at *
      generalize getProp body "age" = age at *
      have hage : (age = JVal.undefined) ∨
          (isValidAge age = true ∧ isUndefined age = false ∧ truthy age = true) := by
        rcases ha with h | h
        · rw [isUndefined_iff] at h; left; exact h
        · right; exact ⟨h, (truthy_of_isValidAge age h).2, (truthy_of_isValidAge age h).1⟩
      have hname : (name = JVal.undefined) ∨
          (∃ n, name = JVal.str n ∧ isValidName (JVal.str n) = true) := by
        rcases hn with h | h
        · rw [isUndefined_iff] at h; left; exact h
        · obtain ⟨n, hn'⟩ := isValidName_str name h
          subst hn'
          right; exact ⟨n, rfl, h⟩
      have hemail : (email = JVal.undefined) ∨
          (∃ e, email = JVal.str e ∧ rxTest emailRegex e = true) ∨
          (∃ elems, email = JVal.arr elems) := by
        rcases he with h | h
        · rw [isUndefined_iff] at h; left; exact h
        · right; exact isValidEmail_true fmt email h
      have hself := mapWrite_self users id old hget
      have hscan : ∀ (e : String) (u1 : User), u1.email = old.email →
          (mapValues (mapWrite users id u1)).any (fun u => cm.lower u.email == cm.lower e) =
            (mapValues users).any (fun u => cm.lower u.email == cm.lower e) :=
        fun e u1 h1 => any_email_congr e _ _ (emails_mapWrite users id old u1 hget h1)
      clear hn he ha
      rcases hemail with he | ⟨e, he, hre⟩ | ⟨elems, he⟩
      · subst he
        rcases hname with hn | ⟨n, hn, hvn⟩
        · subst hn
          rcases hage with ha | ⟨ha, hua, hta⟩
          · subst ha
            simp [isUndefined_undefined, isUndefined_str, isUndefined_arr, truthy_undefined, Except.map, jsTrim, jsToLowerCase, emailTaken_str, hscan, hself, userUpdated, badRequest, internalError]
          · simp [isUndefined_undefined, isUndefined_str, isUndefined_arr, truthy_undefined, Except.map, jsTrim, jsToLowerCase, emailTaken_str, hscan, hself, userUpdated, badRequest, internalError, hua, hta]
        · subst hn
          have htn := truthy_of_isValidName n hvn
          rcases hage with ha | ⟨ha, hua, hta⟩
          · subst ha
            simp [isUndefined_undefined, isUndefined_str, isUndefined_arr, truthy_undefined, Except.map, jsTrim, jsToLowerCase, emailTaken_str, hscan, hself, userUpdated, badRequest, internalError, htn]
          · simp [isUndefined_undefined, isUndefined_str, isUndefined_arr, truthy_undefined, Except.map, jsTrim, jsToLowerCase, emailTaken_str, hscan, hself, userUpdated, badRequest, internalError, htn, hua, hta]
      · subst he
        have hte := truthy_of_email e hre
        by_cases hsame : cm.lower e = cm.lower old.email
        · rcases hname with hn | ⟨n, hn, hvn⟩
          · subst hn
            rcases hage with ha | ⟨ha, hua, hta⟩
            · subst ha
              simp [isUndefined_undefined, isUndefined_str, isUndefined_arr, truthy_undefined, Except.map, jsTrim, jsToLowerCase, emailTaken_str, hscan, hself, userUpdated, badRequest, internalError, hsame, hte]
            · simp [isUndefined_undefined, isUndefined_str, isUndefined_arr, truthy_undefined, Except.map, jsTrim, jsToLowerCase, emailTaken_str, hscan, hself, userUpdated, badRequest, internalError, hsame, hte, hua, hta]
          · subst hn
            have htn := truthy_of_isValidName n hvn
            rcases hage with ha | ⟨ha, hua, hta⟩
            · subst ha
              simp [isUndefined_undefined, isUndefined_str, isUndefined_arr, truthy_undefined, Except.map, jsTrim, jsToLowerCase, emailTaken_str, hscan, hself, userUpdated, badRequest, internalError, hsame, htn, hte]
            · simp [isUndefined_undefined, isUndefined_str, isUndefined_arr, truthy_undefined, Except.map, jsTrim, jsToLowerCase, emailTaken_str, hscan, hself, userUpdated, badRequest, internalError, hsame, htn, hte, hua, hta]
        · cases hany : (mapValues users).any (fun u => cm.lower u.email == cm.lower e)
          · rcases hname with hn | ⟨n, hn, hvn⟩
            · subst hn
              rcases hage with ha | ⟨ha, hua, hta⟩
              · subst ha
                simp [isUndefined_undefined, isUndefined_str, isUndefined_arr, truthy_undefined, Except.map, jsTrim, jsToLowerCase, emailTaken_str, hscan, hself, userUpdated, badRequest, internalError, hsame, hany, hte]
              · simp [isUndefined_undefined, isUndefined_str, isUndefined_arr, truthy_undefined, Except.map, jsTrim, jsToLowerCase, emailTaken_str, hscan, hself, userUpdated, badRequest, internalError, hsame, hany, hte, hua, hta]
            · subst hn
              have htn := truthy_of_isValidName n hvn
              rcases hage with ha | ⟨ha, hua, hta⟩
              · subst ha
                simp [isUndefined_undefined, isUndefined_str, isUndefined_arr, truthy_undefined, Except.map, jsTrim, jsToLowerCase, emailTaken_str, hscan, hself, userUpdated, badRequest, internalError, hsame, hany, htn, hte]
              · simp [isUndefined_undefined, isUndefined_str, isUndefined_arr, truthy_undefined, Except.map, jsTrim, jsToLowerCase, emailTaken_str, hscan, hself, userUpdated, badRequest, internalError, hsame, hany, htn, hte, hua, hta]
          · rcases hname with hn | ⟨n, hn, hvn⟩
            · subst hn
              rcases hage with ha | ⟨ha, hua, hta⟩
              · subst ha
                simp [isUndefined_undefined, isUndefined_str, isUndefined_arr, truthy_undefined, Except.map, jsTrim, jsToLowerCase, emailTaken_str, hscan, hself, userUpdated, badRequest, internalError, hsame, hany, hte]
              · simp [isUndefined_undefined, isUndefined_str, isUndefined_arr, truthy_undefined, Except.map, jsTrim, jsToLowerCase, emailTaken_str, hscan, hself, userUpdated, badRequest, internalError, hsame, hany, hte, hua, hta]
            · subst hn
              have htn := truthy_of_isValidName n hvn
              rcases hage with ha | ⟨ha, hua, hta⟩
              · subst ha
                simp [isUndefined_undefined, isUndefined_str, isUndefined_arr, truthy_undefined, Except.map, jsTrim, jsToLowerCase, emailTaken_str, hscan, hself, userUpdated, badRequest, internalError, hsame, hany, htn, hte]
              · simp [isUndefined_undefined, isUndefined_str, isUndefined_arr, truthy_undefined, Except.map, jsTrim, jsToLowerCase, emailTaken_str, hscan, hself, userUpdated, badRequest, internalError, hsame, hany, htn, hte, hua, hta]
      · subst he
        have hta : truthy (JVal.arr elems) = true := rfl
        rcases hname with hn | ⟨n, hn, hvn⟩
        · subst hn
          rcases hage with ha | ⟨ha, hua, hta2⟩
          · subst ha
            simp [isUndefined_undefined, isUndefined_str, isUndefined_arr, truthy_undefined, Except.map, jsTrim, jsToLowerCase, emailTaken_str, hscan, hself, userUpdated, badRequest, internalError, hta]
          · simp [isUndefined_undefined, isUndefined_str, isUndefined_arr, truthy_undefined, Except.map, jsTrim, jsToLowerCase, emailTaken_str, hscan, hself, userUpdated, badRequest, internalError, hta, hua, hta2]
        · subst hn
          have htn := truthy_of_isValidName n hvn
          rcases hage with ha | ⟨ha, hua, hta2⟩
          · subst ha
            simp [isUndefined_undefined, isUndefined_str, isUndefined_arr, truthy_undefined, Except.map, jsTrim, jsToLowerCase, emailTaken_str, hscan, hself, userUpdated, badRequest, internalError, hta, htn]
          · simp [isUndefined_undefined, isUndefined_str, isUndefined_arr, truthy_undefined, Except.map, jsTrim, jsToLowerCase, emailTaken_str, hscan, hself, userUpdated, badRequest, internalError, hta, htn, hua, hta2]

/-! ## C5 and C6: `POST` -/

theorem mapSet_fresh (users : Store) (id : String) (u : User)
    (h : mapGet users id = none) : mapSet users id u = users ++ [(id, u)] := by
  induction users with
  | nil => rfl
  | cons q rest ih =>
    obtain ⟨k, v⟩ := q
    by_cases hk : k = id
    · simp [mapGet, hk] at h
    · simp only [mapGet, hk, if_false] at h
      simp [mapSet, hk, ih h]

/-- C5. When name and email are strings, the input passes `validateUser` in full mode, no stored
email equals the input email after lower-casing both, and the generated id is not yet a key,
`POST /users` answers 201 with the new record, and the map is the old map followed by that one
record under the generated id: the name trimmed, the email lower-cased, the age as given. -/
theorem create_postcondition (fmt : NumberFormat) (cm : CaseMap) (users : Store)
    (body : List (String × JVal)) (userId : String) (t1 t2 : Nat) (n e : String)
    (v : Validation)
    (hname : getProp body "name" = JVal.str n) (hemail : getProp body "email" = JVal.str e)
    (hval : validateUser fmt [("name", getProp body "name"), ("email", getProp body "email"),
      ("age", getProp body "age")] false = Except.ok v)
    (hv : v.valid = true)
    (hfree : ∀ u ∈ mapValues users, cm.lower u.email ≠ cm.lower e)
    (hfresh : mapGet users userId = none) :
    (postUsers fmt cm users body userId t1 t2).1.status = 201 ∧
    (postUsers fmt cm users body userId t1 t2).1.data =
      some { id := userId, name := trimStr n, email := cm.lower e,
             age := getProp body "age", createdAt := t1, updatedAt := t2 } ∧
    (postUsers fmt cm users body userId t1 t2).2 =
      users ++ [(userId, { id := userId, name := trimStr n, email := cm.lower e,
                           age := getProp body "age", createdAt := t1, updatedAt := t2 })] := by
  have hany : (mapValues users).any (fun u => cm.lower u.email == cm.lower e) = false := by
    simpa using hfree
  unfold postUsers
  simp only []
  rw [hval]
  simp [hv, hname, hemail, emailTaken_str, hany, jsTrim, jsToLowerCase, userCreated,
    mapSet_fresh _ _ _ hfresh]

/-- C5, at the `POST` of Bob on the map that holds Alice. -/
theorem create_postcondition_witness :
    (postUsers plainFormat asciiCase aliceStore bobBody idB 2 2).1.status = 201 ∧
    (postUsers plainFormat asciiCase aliceStore bobBody idB 2 2).1.data =
      some { id := idB, name := trimStr "  Bob  ", email := asciiCase.lower "bob@x.com",
             age := getProp bobBody "age", createdAt := 2, updatedAt := 2 } ∧
    (postUsers plainFormat asciiCase aliceStore bobBody idB 2 2).2 =
      aliceStore ++
        [(idB, { id := idB, name := trimStr "  Bob  ", email := asciiCase.lower "bob@x.com",
                 age := getProp bobBody "age", createdAt := 2, updatedAt := 2 })] :=
  create_postcondition plainFormat asciiCase aliceStore bobBody idB 2 2 "  Bob  " "bob@x.com"
    { valid := true, error := none } rfl rfl rfl rfl (by decide) rfl

/-- C6. When name and email are strings and the input passes `validateUser` in full mode,
`POST /users` answers 400 `Email already exists` exactly when some stored email equals the
input email after lower-casing both, and then the map is unchanged. -/
theorem create_duplicate_iff (fmt : NumberFormat) (cm : CaseMap) (users : Store)
    (body : List (String × JVal)) (userId : String) (t1 t2 : Nat) (n e : String)
    (v : Validation)
    (hname : getProp body "name" = JVal.str n) (hemail : getProp body "email" = JVal.str e)
    (hval : validateUser fmt [("name", getProp body "name"), ("email", getProp body "email"),
      ("age", getProp body "age")] false = Except.ok v)
    (hv : v.valid = true) :
    (((postUsers fmt cm users body userId t1 t2).1.status = 400 ∧
        (postUsers fmt cm users body userId t1 t2).1.text = "Email already exists") ↔
      ∃ u ∈ mapValues users, cm.lower u.email = cm.lower e) ∧
    ((∃ u ∈ mapValues users, cm.lower u.email = cm.lower e) →
      (postUsers fmt cm users body userId t1 t2).2 = users) := by
  unfold postUsers
  simp only []
  rw [hval]
  cases hany : (mapValues users).any (fun u => cm.lower u.email == cm.lower e)
  · have hno : ¬ ∃ u ∈ mapValues users, cm.lower u.email = cm.lower e := by
      simpa using hany
    simp [hv, hname, hemail, emailTaken_str, hany, jsTrim, jsToLowerCase, userCreated, hno]
  · have hyes : ∃ u ∈ mapValues users, cm.lower u.email = cm.lower e := by
      simpa using hany
    simp [hv, hname, hemail, emailTaken_str, hany, badRequest, hyes]

/-- C6, at the `POST` of `{name: "Bob", email: "ALICE@x.com", age: 40}` after Alice and Bob. -/
theorem create_duplicate_iff_witness :
    (((postUsers plainFormat asciiCase sampleStore
          [("name", JVal.str "Bob"), ("email", JVal.str "ALICE@x.com"), ("age", JVal.num 40)]
          idB 3 3).1.status = 400 ∧
        (postUsers plainFormat asciiCase sampleStore
          [("name", JVal.str "Bob"), ("email", JVal.str "ALICE@x.com"), ("age", JVal.num 40)]
          idB 3 3).1.text = "Email already exists") ↔
      ∃ u ∈ mapValues sampleStore, asciiCase.lower u.email = asciiCase.lower "ALICE@x.com") ∧
    ((∃ u ∈ mapValues sampleStore, asciiCase.lower u.email = asciiCase.lower "ALICE@x.com") →
      (postUsers plainFormat asciiCase sampleStore
          [("name", JVal.str "Bob"), ("email", JVal.str "ALICE@x.com"), ("age", JVal.num 40)]
          idB 3 3).2 = sampleStore) :=
  create_duplicate_iff plainFormat asciiCase sampleStore
    [("name", JVal.str "Bob"), ("email", JVal.str "ALICE@x.com"), ("age", JVal.num 40)]
    idB 3 3 "Bob" "ALICE@x.com" { valid := true, error := none } rfl rfl rfl rfl

/-! ## C7: the internal-error branch -/

/-- C7. An email given as the array `["a@b.co"]` passes `isValidEmail` and `validateUser`, is not
a string, so that `toLowerCase` throws on it, and `POST`, `PUT` and `PATCH` all answer 500. -/
theorem array_email_reaches_internal_error :
    isValidEmail plainFormat (JVal.arr [JVal.str "a@b.co"]) = Except.ok true ∧
    validateUser plainFormat arrayEmailBody false = Except.ok { valid := true, error := none } ∧
    jsToLowerCase asciiCase (JVal.arr [JVal.str "a@b.co"]) = Except.error Fault.typeError ∧
    (postUsers plainFormat asciiCase [] arrayEmailBody idA 1 1).1.status = 500 ∧
    (putUser plainFormat asciiCase sampleStore idA arrayEmailBody 5).1.status = 500 ∧
    (patchUser plainFormat asciiCase sampleStore idA arrayEmailBody 5).1.status = 500 := by
  refine ⟨rfl, rfl, rfl, ?_, ?_, ?_⟩ <;> decide

/-! ## C9: partial updates -/

theorem mapGet_mapWrite_same (users : Store) (id : String) (old new : User)
    (h : mapGet users id = some old) : mapGet (mapWrite users id new) id = some new := by
  induction users with
  | nil => cases h
  | cons q rest ih =>
    obtain ⟨k, v⟩ := q
    by_cases hk : k = id
    · simp [mapWrite, mapGet, hk]
    · simp only [mapGet, hk, if_false] at h
      simp [mapWrite, mapGet, hk, ih h]

theorem mapGet_mapWrite_other (users : Store) (id k : String) (new : User) (hk : k ≠ id) :
    mapGet (mapWrite users id new) k = mapGet users k := by
  induction users with
  | nil => rfl
  | cons q rest ih =>
    obtain ⟨k', v⟩ := q
    by_cases hk' : k' = id
    · have h1 : ¬ k' = k := fun h => hk (h ▸ hk')
      simp only [mapWrite, hk', if_true, mapGet]
      rw [hk'] at h1
      simp only [h1, if_false]
    · simp only [mapWrite, hk', if_false, mapGet, ih]

theorem validateUser_age_only (fmt : NumberFormat) (a : JVal) (h : isValidAge a = true) :
    validateUser fmt [("age", a)] true = Except.ok { valid := true, error := none } := by
  simp [validateUser, getProp, isUndefined_undefined, h]

/-- The fields a successful update leaves alone, read off `FieldsUpdated`. -/
theorem FieldsUpdated.absent_kept {cm : CaseMap} {users : Store} {body : List (String × JVal)}
    {old new : User} {now : Nat} (h : FieldsUpdated cm users body old new now) :
    new.id = old.id ∧ new.createdAt = old.createdAt ∧
    (getProp body "name" = JVal.undefined → new.name = old.name) ∧
    (getProp body "email" = JVal.undefined → new.email = old.email) ∧
    (getProp body "age" = JVal.undefined → new.age = old.age) := by
  obtain ⟨h1, h2, _, hn, he, ha⟩ := h
  refine ⟨h1, h2, ?_, ?_, ?_⟩
  · intro hu
    rcases hn with ⟨_, hn⟩ | ⟨n, hn, _, _⟩
    · exact hn
    · rw [hu] at hn; cases hn
  · intro hu
    rcases he with ⟨_, he⟩ | ⟨e, he, _, _, _⟩
    · exact he
    · rw [hu] at he; cases he
  · intro hu
    rcases ha with ⟨_, ha⟩ | ⟨hva, _⟩
    · exact ha
    · rw [hu] at hva; cases hva

/-- C9. With a record `old` under a well-formed `id` and a valid age `a`, `PATCH` with the
body `{age: a}` answers 200, the record under `id` is then `old` with age `a` and a new
`updatedAt` (same id, name, email and `createdAt`), and every other key holds what it held.
And whenever `PUT` or `PATCH` answers 200, a field among name, email and age that the body
does not carry has kept its value, as have the id and `createdAt`. -/
theorem update_fidelity (fmt : NumberFormat) (cm : CaseMap) (users : Store) (id : String)
    (body : List (String × JVal)) (now : Nat) :
    (∀ (old : User) (a : JVal), rxTest uuidRegex id = true → mapGet users id = some old →
      isValidAge a = true →
      (patchUser fmt cm users id [("age", a)] now).1.status = 200 ∧
      mapGet (patchUser fmt cm users id [("age", a)] now).2 id =
        some { id := old.id, name := old.name, email := old.email, age := a,
               createdAt := old.createdAt, updatedAt := now } ∧
      ∀ k, k ≠ id → mapGet (patchUser fmt cm users id [("age", a)] now).2 k = mapGet users k) ∧
    ((putUser fmt cm users id body now).1.status = 200 →
      ∃ old new, mapGet users id = some old ∧
        mapGet (putUser fmt cm users id body now).2 id = some new ∧
        new.id = old.id ∧ new.createdAt = old.createdAt ∧
        (getProp body "name" = JVal.undefined → new.name = old.name) ∧
        (getProp body "email" = JVal.undefined → new.email = old.email) ∧
        (getProp body "age" = JVal.undefined → new.age = old.age)) ∧
    ((patchUser fmt cm users id body now).1.status = 200 →
      ∃ old new, mapGet users id = some old ∧
        mapGet (patchUser fmt cm users id body now).2 id = some new ∧
        new.id = old.id ∧ new.createdAt = old.createdAt ∧
        (getProp body "name" = JVal.undefined → new.name = old.name) ∧
        (getProp body "email" = JVal.undefined → new.email = old.email) ∧
        (getProp body "age" = JVal.undefined → new.age = old.age)) := by
  refine ⟨?_, ?_, ?_⟩
  · intro old a hid hget ha
    have hua := (truthy_of_isValidAge a ha).2
    have heq : patchUser fmt cm users id [("age", a)] now =
        (userUpdated
          { id := old.id, name := old.name, email := old.email, age := a,
            createdAt := old.createdAt, updatedAt := now },
         mapWrite users id
          { id := old.id, name := old.name, email := old.email, age := a,
            createdAt := old.createdAt, updatedAt := now }) := by
      unfold patchUser
      simp only [hid, hget, validateUser_age_only fmt a ha]
      simp [getProp, isUndefined_undefined, hua]
    rw [heq]
    exact ⟨rfl, mapGet_mapWrite_same users id old _ hget,
      fun k hk => mapGet_mapWrite_other users id k _ hk⟩
  · intro hs
    rcases putUser_spec fmt cm users id body now with ⟨hne, _⟩ | ⟨old, new, _, hget, hf, heq⟩
    · exact absurd hs hne
    · refine ⟨old, new, hget, ?_, hf.absent_kept⟩
      rw [heq]
      exact mapGet_mapWrite_same users id old new hget
  · intro hs
    rcases patchUser_spec fmt cm users id body now with ⟨hne, _⟩ | ⟨old, new, _, hget, hf, heq⟩
    · exact absurd hs hne
    · refine ⟨old, new, hget, ?_, hf.absent_kept⟩
      rw [heq]
      exact mapGet_mapWrite_same users id old new hget

/-! ## C10: identifiers -/

theorem ids_mapWrite (users : Store) (id : String) (old new : User)
    (hget : mapGet users id = some old) (hid : new.id = old.id) :
    (mapWrite users id new).map (fun p => (p.1, p.2.id)) =
      users.map (fun p => (p.1, p.2.id)) := by
  induction users with
  | nil => rfl
  | cons q rest ih =>
    obtain ⟨k, v⟩ := q
    by_cases hk : k = id
    · simp only [mapGet, hk, if_true, Option.some.injEq] at hget
      simp [mapWrite, hk, hid, hget]
    · simp only [mapGet, hk, if_false] at hget
      simp [mapWrite, hk, ih hget]

/-- One request keeps every record under the key equal to its id. -/
theorem key_step (fmt : NumberFormat) (cm : CaseMap) (users : Store) (hp : ∀ p ∈ users, p.2.id = p.1) :
    (∀ body userId t1 t2, ∀ p ∈ (postUsers fmt cm users body userId t1 t2).2, p.2.id = p.1) ∧
    (∀ id body now, ∀ p ∈ (putUser fmt cm users id body now).2, p.2.id = p.1) ∧
    (∀ id updates now, ∀ p ∈ (patchUser fmt cm users id updates now).2, p.2.id = p.1) ∧
    (∀ id, ∀ p ∈ (deleteUser users id).2, p.2.id = p.1) := by
  refine ⟨?_, ?_, ?_, ?_⟩
  · intro body userId t1 t2 p hpm
    rcases postUsers_spec fmt cm users body userId t1 t2 with
      ⟨_, h⟩ | ⟨n, e, _, _, _, _, _, _, h⟩
    · rw [h] at hpm; exact hp p hpm
    · rw [h] at hpm
      rcases mem_mapSet users userId _ p hpm with hin | heq
      · exact hp p hin
      · rw [heq]
  · intro id body now p hpm
    rcases putUser_spec fmt cm users id body now with ⟨_, h⟩ | ⟨old, new, _, hget, hf, h⟩
    · rw [h] at hpm; exact hp p hpm
    · rw [h] at hpm
      rcases mem_mapWrite users id new p hpm with hin | heq
      · exact hp p hin
      · rw [heq]
        exact hf.1.trans (hp _ (mapGet_mem users id old hget))
  · intro id updates now p hpm
    rcases patchUser_spec fmt cm users id updates now with
      ⟨_, h | ⟨old, n, hget, _, _, h⟩⟩ | ⟨old, new, _, hget, hf, h⟩
    · rw [h] at hpm; exact hp p hpm
    · rw [h] at hpm
      rcases mem_mapWrite users id _ p hpm with hin | heq
      · exact hp p hin
      · rw [heq]
        exact hp (id, old) (mapGet_mem users id old hget)
    · rw [h] at hpm
      rcases mem_mapWrite users id new p hpm with hin | heq
      · exact hp p hin
      · rw [heq]
        exact hf.1.trans (hp _ (mapGet_mem users id old hget))
  · intro id p hpm
    rcases deleteUser_spec users id with h | h
    · rw [h] at hpm; exact hp p hpm
    · rw [h] at hpm
      exact hp p ((mapDelete_sublist users id).subset hpm)

theorem key_is_id_of_reachable (fmt : NumberFormat) (cm : CaseMap) (users : Store)
    (h : Reachable fmt cm users) : ∀ p ∈ users, p.2.id = p.1 := by
  induction h with
  | init => intro p hpm; cases hpm
  | post _ body userId t1 t2 ih => exact (key_step fmt cm _ ih).1 body userId t1 t2
  | put _ id body now ih => exact (key_step fmt cm _ ih).2.1 id body now
  | patch _ id updates now ih => exact (key_step fmt cm _ ih).2.2.1 id updates now
  | delete _ id ih => exact (key_step fmt cm _ ih).2.2.2 id

/-- C10. For any map, id and body, the keys and the ids of the records are the same after a `PUT`
and after a `PATCH` as before, in the same order, whether the call succeeds or not; and in every
map the server can reach from the empty map each record is stored under the key equal to its own
id. -/
theorem identifier_stability (fmt : NumberFormat) (cm : CaseMap) (users : Store) (id : String)
    (body : List (String × JVal)) (now : Nat) :
    (putUser fmt cm users id body now).2.map (fun p => (p.1, p.2.id)) =
      users.map (fun p => (p.1, p.2.id)) ∧
    (patchUser fmt cm users id body now).2.map (fun p => (p.1, p.2.id)) =
      users.map (fun p => (p.1, p.2.id)) ∧
    (Reachable fmt cm users → ∀ p ∈ users, p.2.id = p.1) := by
  refine ⟨?_, ?_, key_is_id_of_reachable fmt cm users⟩
  · rcases putUser_spec fmt cm users id body now with ⟨_, h⟩ | ⟨old, new, _, hget, hf, h⟩
    · rw [h]
    · rw [h]
      exact ids_mapWrite users id old new hget hf.1
  · rcases patchUser_spec fmt cm users id body now with
      ⟨_, h | ⟨old, n, hget, _, _, h⟩⟩ | ⟨old, new, _, hget, hf, h⟩
    · rw [h]
    · rw [h]
      exact ids_mapWrite users id old _ hget rfl
    · rw [h]
      exact ids_mapWrite users id old new hget hf.1

/-- C9, at the `PATCH` of Alice with `{age: 31}` and at the `PUT` and `PATCH` of Alice with a body
carrying an age, an `id` and a `createdAt`. -/
theorem update_fidelity_witness :
    ((patchUser plainFormat asciiCase sampleStore idA [("age", JVal.num 31)] 5).1.status = 200 ∧
      mapGet (patchUser plainFormat asciiCase sampleStore idA [("age", JVal.num 31)] 5).2 idA =
        some { id := aliceRecord.id, name := aliceRecord.name, email := aliceRecord.email,
               age := JVal.num 31, createdAt := aliceRecord.createdAt, updatedAt := 5 } ∧
      ∀ k, k ≠ idA →
        mapGet (patchUser plainFormat asciiCase sampleStore idA [("age", JVal.num 31)] 5).2 k =
          mapGet sampleStore k) ∧
    (∃ old new, mapGet sampleStore idA = some old ∧
        mapGet (putUser plainFormat asciiCase sampleStore idA ageBody 5).2 idA = some new ∧
        new.id = old.id ∧ new.createdAt = old.createdAt ∧
        (getProp ageBody "name" = JVal.undefined → new.name = old.name) ∧
        (getProp ageBody "email" = JVal.undefined → new.email = old.email) ∧
        (getProp ageBody "age" = JVal.undefined → new.age = old.age)) ∧
    (∃ old new, mapGet sampleStore idA = some old ∧
        mapGet (patchUser plainFormat asciiCase sampleStore idA ageBody 5).2 idA = some new ∧
        new.id = old.id ∧ new.createdAt = old.createdAt ∧
        (getProp ageBody "name" = JVal.undefined → new.name = old.name) ∧
        (getProp ageBody "email" = JVal.undefined → new.email = old.email) ∧
        (getProp ageBody "age" = JVal.undefined → new.age = old.age)) :=
  ⟨(update_fidelity plainFormat asciiCase sampleStore idA ageBody 5).1 aliceRecord (JVal.num 31)
      (by decide) rfl (by decide),
    (update_fidelity plainFormat asciiCase sampleStore idA ageBody 5).2.1 (by decide),
    (update_fidelity plainFormat asciiCase sampleStore idA ageBody 5).2.2 (by decide)⟩

/-- C10, at the `PUT` and `PATCH` of Alice with a body carrying an `id` and a `createdAt`, and at
the map holding Alice and Bob. -/
theorem identifier_stability_witness :
    (putUser plainFormat asciiCase sampleStore idA ageBody 5).2.map (fun p => (p.1, p.2.id)) =
      sampleStore.map (fun p => (p.1, p.2.id)) ∧
    (patchUser plainFormat asciiCase sampleStore idA ageBody 5).2.map (fun p => (p.1, p.2.id)) =
      sampleStore.map (fun p => (p.1, p.2.id)) ∧
    ∀ p ∈ sampleStore, p.2.id = p.1 :=
  ⟨(identifier_stability plainFormat asciiCase sampleStore idA ageBody 5).1,
    (identifier_stability plainFormat asciiCase sampleStore idA ageBody 5).2.1,
    (identifier_stability plainFormat asciiCase sampleStore idA ageBody 5).2.2 sampleStore_reachable⟩

/-! ## C11, C12, C13: `validateUser` -/

theorem truthy_of_isValidEmail (fmt : NumberFormat) (v : JVal)
    (h : isValidEmail fmt v = Except.ok true) : truthy v = true ∧ isUndefined v = false := by
  rcases isValidEmail_true fmt v h with ⟨e, he, hre⟩ | ⟨elems, he⟩
  · subst he
    exact ⟨truthy_of_email e hre, rfl⟩
  · subst he
    exact ⟨rfl, rfl⟩

theorem isUndefined_of_not_truthy_valid (v : JVal) (h : isValidName v = true) :
    truthy v = true ∧ isUndefined v = false := by
  obtain ⟨n, hn⟩ := isValidName_str v h
  subst hn
  exact ⟨truthy_of_isValidName n h, rfl⟩

/-- C11. In full mode `validateUser` returns `{ valid: true }` exactly when name, email and age
are all present (not `undefined`) and pass `isValidName`, `isValidEmail` and `isValidAge`. -/
theorem validateUser_full_valid_iff (fmt : NumberFormat) (user : List (String × JVal)) :
    validateUser fmt user false = Except.ok { valid := true, error := none } ↔
      (isUndefined (getProp user "name") = false ∧
        isUndefined (getProp user "email") = false ∧
        isUndefined (getProp user "age") = false) ∧
      isValidName (getProp user "name") = true ∧
      isValidEmail fmt (getProp user "email") = Except.ok true ∧
      isValidAge (getProp user "age") = true := by
  constructor
  · intro h
    obtain ⟨hn, he, ha, ht⟩ := validateUser_valid fmt user false _ h rfl
    obtain ⟨t1, t2, t3⟩ := ht rfl
    generalize getProp user "name" = name at *
    generalize getProp user "email" = email at *
    generalize getProp user "age" = age at *
    have u1 : isUndefined name = false := by
      cases name <;> first | rfl | cases t1
    have u2 : isUndefined email = false := by
      cases email <;> first | rfl | cases t2
    have u3 : isUndefined age = false := by
      cases age <;> first | rfl | cases t3
    rw [u1] at hn; rw [u2] at he; rw [u3] at ha
    simp only [Bool.false_eq_true, false_or] at hn he ha
    exact ⟨⟨u1, u2, u3⟩, hn, he, ha⟩
  · rintro ⟨_, hn, he, ha⟩
    obtain ⟨t1, u1⟩ := isUndefined_of_not_truthy_valid _ hn
    obtain ⟨t2, u2⟩ := truthy_of_isValidEmail fmt _ he
    obtain ⟨t3, u3⟩ := truthy_of_isValidAge _ ha
    unfold validateUser
    simp [t1, t2, t3, u1, u2, u3, hn, he, ha]

/-- C12, refuted as stated. With all three fields present, an empty name is reported as
`Name is required` and an age of 0 as `Age is required`, not with the reasons of an invalid
name or age. -/
theorem full_mode_falsy_reported_required :
    (isUndefined (getProp emptyNameBody "name") = false ∧
      isUndefined (getProp emptyNameBody "email") = false ∧
      isUndefined (getProp emptyNameBody "age") = false ∧
      isValidName (getProp emptyNameBody "name") = false ∧
      validateUser plainFormat emptyNameBody false =
        Except.ok { valid := false, error := some "Name is required" } ∧
      "Name is required" ≠ "Name must be a non-empty string (max 100 chars)") ∧
    (isUndefined (getProp zeroAgeBody "name") = false ∧
      isUndefined (getProp zeroAgeBody "email") = false ∧
      isUndefined (getProp zeroAgeBody "age") = false ∧
      isValidName (getProp zeroAgeBody "name") = true ∧
      isValidEmail plainFormat (getProp zeroAgeBody "email") = Except.ok true ∧
      isValidAge (getProp zeroAgeBody "age") = false ∧
      validateUser plainFormat zeroAgeBody false =
        Except.ok { valid := false, error := some "Age is required" } ∧
      "Age is required" ≠ "Age must be a number between 1 and 149") := by
  refine ⟨⟨rfl, rfl, rfl, ?_, rfl, ?_⟩, ⟨rfl, rfl, rfl, ?_, rfl, ?_, rfl, ?_⟩⟩ <;> decide

/-- C12, amended. In full mode the first field among name, email, age that is falsy
(`undefined`, `null`, `false`, 0 or the empty string) is reported as required. When all three
are truthy: a name that fails `isValidName` is reported with the reason of the name; with a
valid name, an email on which `isValidEmail` returns false is reported with the reason of the
email; with a valid name and an email on which `isValidEmail` returns true, an age that fails
`isValidAge` is reported with the reason of the age. Nothing is said of an email on which
`isValidEmail` throws. -/
theorem validateUser_full_reason (fmt : NumberFormat) (user : List (String × JVal)) :
    (truthy (getProp user "name") = false →
      validateUser fmt user false =
        Except.ok { valid := false, error := some "Name is required" }) ∧
    (truthy (getProp user "name") = true → truthy (getProp user "email") = false →
      validateUser fmt user false =
        Except.ok { valid := false, error := some "Email is required" }) ∧
    (truthy (getProp user "name") = true → truthy (getProp user "email") = true →
      truthy (getProp user "age") = false →
      validateUser fmt user false =
        Except.ok { valid := false, error := some "Age is required" }) ∧
    (truthy (getProp user "name") = true → truthy (getProp user "email") = true →
      truthy (getProp user "age") = true →
      (isValidName (getProp user "name") = false →
        validateUser fmt user false = Except.ok
          { valid := false, error := some "Name must be a non-empty string (max 100 chars)" }) ∧
      (isValidName (getProp user "name") = true →
        isValidEmail fmt (getProp user "email") = Except.ok false →
        validateUser fmt user false =
          Except.ok { valid := false, error := some "Invalid email format" }) ∧
      (isValidName (getProp user "name") = true →
        isValidEmail fmt (getProp user "email") = Except.ok true →
        isValidAge (getProp user "age") = false →
        validateUser fmt user false = Except.ok
          { valid := false, error := some "Age must be a number between 1 and 149" })) := by
  have hu : ∀ v : JVal, truthy v = true → isUndefined v = false := by
    intro v hv
    cases v <;> first | rfl | cases hv
  unfold validateUser
  refine ⟨?_, ?_, ?_, ?_⟩
  · intro h1
    simp [h1]
  · intro h1 h2
    simp [h1, h2]
  · intro h1 h2 h3
    simp [h1, h2, h3]
  · intro h1 h2 h3
    refine ⟨?_, ?_, ?_⟩
    · intro hn
      simp [h1, h2, h3, hu _ h1, hn]
    · intro hn he
      simp [h1, h2, h3, hu _ h1, hu _ h2, hn, he]
    · intro hn he ha
      simp [h1, h2, h3, hu _ h1, hu _ h2, hu _ h3, hn, he, ha]

/-- C12 amended, at six bodies: no name; no email; no age; a number as name; an email without
`@`; the age 150. -/
theorem validateUser_full_reason_witness :
    validateUser plainFormat [] false =
      Except.ok { valid := false, error := some "Name is required" } ∧
    validateUser plainFormat [("name", JVal.str "Al")] false =
      Except.ok { valid := false, error := some "Email is required" } ∧
    validateUser plainFormat [("name", JVal.str "Al"), ("email", JVal.str "a@b.co")] false =
      Except.ok { valid := false, error := some "Age is required" } ∧
    validateUser plainFormat
        [("name", JVal.num 5), ("email", JVal.str "a@b.co"), ("age", JVal.num 30)] false =
      Except.ok
        { valid := false, error := some "Name must be a non-empty string (max 100 chars)" } ∧
    validateUser plainFormat
        [("name", JVal.str "Al"), ("email", JVal.str "nope"), ("age", JVal.num 30)] false =
      Except.ok { valid := false, error := some "Invalid email format" } ∧
    validateUser plainFormat
        [("name", JVal.str "Al"), ("email", JVal.str "a@b.co"), ("age", JVal.num 150)] false =
      Except.ok { valid := false, error := some "Age must be a number between 1 and 149" } :=
  ⟨(validateUser_full_reason plainFormat []).1 rfl,
    (validateUser_full_reason plainFormat [("name", JVal.str "Al")]).2.1 (by decide) rfl,
    (validateUser_full_reason plainFormat
      [("name", JVal.str "Al"), ("email", JVal.str "a@b.co")]).2.2.1
      (by decide) (by decide) rfl,
    ((validateUser_full_reason plainFormat
      [("name", JVal.num 5), ("email", JVal.str "a@b.co"), ("age", JVal.num 30)]).2.2.2
      (by decide) (by decide) (by decide)).1 rfl,
    ((validateUser_full_reason plainFormat
      [("name", JVal.str "Al"), ("email", JVal.str "nope"), ("age", JVal.num 30)]).2.2.2
      (by decide) (by decide) (by decide)).2.1 (by decide) rfl,
    ((validateUser_full_reason plainFormat
      [("name", JVal.str "Al"), ("email", JVal.str "a@b.co"), ("age", JVal.num 150)]).2.2.2
      (by decide) (by decide) (by decide)).2.2 (by decide) rfl (by decide)⟩

/-- C13. In update mode, with the email `{toString: 1}` and the age 150, the email is present,
`isValidEmail` throws on it, and so does `validateUser`: no reason is reported, neither that of
the email nor that of the age, and `PATCH` answers 500. -/
theorem update_mode_throws_on_object_email :
    isUndefined (getProp throwingEmailBody "email") = false ∧
    isUndefined (getProp throwingEmailBody "age") = false ∧
    isValidAge (getProp throwingEmailBody "age") = false ∧
    isValidEmail plainFormat (getProp throwingEmailBody "email") =
      Except.error Fault.typeError ∧
    validateUser plainFormat throwingEmailBody true = Except.error Fault.typeError ∧
    (patchUser plainFormat asciiCase sampleStore idA throwingEmailBody 5).1.status = 500 := by
  refine ⟨rfl, rfl, ?_, rfl, rfl, ?_⟩ <;> decide

/-- What update mode does on every candidate on which `isValidEmail` does not throw:
`validateUser` returns `{ valid: true }` exactly when each of name, email and age is absent or
passes its validator (so the empty object is valid); otherwise the first field, in the order
name, email, age, that is present and fails its validator is reported with its own reason. -/
theorem validateUser_update_mode (fmt : NumberFormat) (user : List (String × JVal)) :
    (validateUser fmt user true = Except.ok { valid := true, error := none } ↔
      (isUndefined (getProp user "name") = true ∨ isValidName (getProp user "name") = true) ∧
      (isUndefined (getProp user "email") = true ∨
        isValidEmail fmt (getProp user "email") = Except.ok true) ∧
      (isUndefined (getProp user "age") = true ∨ isValidAge (getProp user "age") = true)) ∧
    validateUser fmt [] true = Except.ok { valid := true, error := none } ∧
    (isUndefined (getProp user "name") = false → isValidName (getProp user "name") = false →
      validateUser fmt user true = Except.ok
        { valid := false, error := some "Name must be a non-empty string (max 100 chars)" }) ∧
    ((isUndefined (getProp user "name") = true ∨ isValidName (getProp user "name") = true) →
      isUndefined (getProp user "email") = false →
      isValidEmail fmt (getProp user "email") = Except.ok false →
      validateUser fmt user true =
        Except.ok { valid := false, error := some "Invalid email format" }) ∧
    ((isUndefined (getProp user "name") = true ∨ isValidName (getProp user "name") = true) →
      (isUndefined (getProp user "email") = true ∨
        isValidEmail fmt (getProp user "email") = Except.ok true) →
      isUndefined (getProp user "age") = false → isValidAge (getProp user "age") = false →
      validateUser fmt user true = Except.ok
        { valid := false, error := some "Age must be a number between 1 and 149" }) := by
  refine ⟨⟨?_, ?_⟩, rfl, ?_, ?_, ?_⟩
  · intro h
    obtain ⟨hn, he, ha, _⟩ := validateUser_valid fmt user true _ h rfl
    exact ⟨hn, he, ha⟩
  · rintro ⟨hn, he, ha⟩
    unfold validateUser
    rcases hn with hn | hn <;> rcases he with he | he <;> rcases ha with ha | ha <;>
      simp [hn, he, ha]
  · intro hn hv
    unfold validateUser
    simp [hn, hv]
  · intro hn he hv
    unfold validateUser
    rcases hn with hn | hn <;> simp [hn, he, hv]
  · intro hn he ha hv
    unfold validateUser
    rcases hn with hn | hn <;> rcases he with he | he <;> simp [hn, he, ha, hv]

/-- Update mode at three bodies: a number as name; an email without `@` next to a valid name;
the age 150 alone. -/
theorem validateUser_update_mode_witness :
    validateUser plainFormat [("name", JVal.num 5), ("age", JVal.num 150)] true = Except.ok
      { valid := false, error := some "Name must be a non-empty string (max 100 chars)" } ∧
    validateUser plainFormat [("name", JVal.str "Al"), ("email", JVal.str "nope")] true =
      Except.ok { valid := false, error := some "Invalid email format" } ∧
    validateUser plainFormat [("age", JVal.num 150)] true = Except.ok
      { valid := false, error := some "Age must be a number between 1 and 149" } :=
  ⟨(validateUser_update_mode plainFormat [("name", JVal.num 5), ("age", JVal.num 150)]).2.2.1
      rfl rfl,
    (validateUser_update_mode plainFormat
      [("name", JVal.str "Al"), ("email", JVal.str "nope")]).2.2.2.1
      (Or.inr (by decide)) rfl rfl,
    (validateUser_update_mode plainFormat [("age", JVal.num 150)]).2.2.2.2
      (Or.inl rfl) (Or.inl rfl) rfl (by decide)⟩

/-! ## C14: the shape of an email -/

/-- C14. For every string `s`, `isValidEmail(s)` is true exactly when `s` has no white space,
has exactly one `@`, has at least one character before it, and has after it a `.` that is
neither the first nor the last character of that part. -/
theorem isValidEmail_iff_shape (fmt : NumberFormat) (s : String) :
    isValidEmail fmt (JVal.str s) = Except.ok true ↔ EmailShape s := by
  rw [isValidEmail_str]
  simp only [Except.ok.injEq]
  unfold rxTest EmailShape
  rw [emailRegex_split]
  constructor
  · rintro ⟨a, b, c, h, ⟨ha, pa⟩, ⟨hb, pb⟩, ⟨hc, pc⟩⟩
    have na : '@' ∉ a := fun hm => ((notSpaceAt_iff _).mp (pa _ hm)).2 rfl
    have nb : '@' ∉ b := fun hm => ((notSpaceAt_iff _).mp (pb _ hm)).2 rfl
    have nc : '@' ∉ c := fun hm => ((notSpaceAt_iff _).mp (pc _ hm)).2 rfl
    refine ⟨?_, ?_, a, b, c, h, ha, hb, hc⟩
    · intro x hx
      rw [h] at hx
      simp only [List.mem_append, List.mem_cons] at hx
      rcases hx with hx | hx | hx | hx | hx
      · exact ((notSpaceAt_iff _).mp (pa _ hx)).1
      · rw [hx]; decide
      · exact ((notSpaceAt_iff _).mp (pb _ hx)).1
      · rw [hx]; decide
      · exact ((notSpaceAt_iff _).mp (pc _ hx)).1
    · rw [h]
      simp [List.count_append, List.count_cons, List.count_eq_zero.mpr na,
        List.count_eq_zero.mpr nb, List.count_eq_zero.mpr nc]
  · rintro ⟨hws, hcount, a, b, c, h, ha, hb, hc⟩
    rw [h] at hcount hws
    have hdot : ('.' == '@') = false := by decide
    simp only [List.count_append, List.count_cons, beq_self_eq_true, if_true, hdot,
      Bool.false_eq_true, if_false] at hcount
    have na : '@' ∉ a := List.count_eq_zero.mp (by omega)
    have nb : '@' ∉ b := List.count_eq_zero.mp (by omega)
    have nc : '@' ∉ c := List.count_eq_zero.mp (by omega)
    refine ⟨a, b, c, h, ⟨ha, ?_⟩, ⟨hb, ?_⟩, ⟨hc, ?_⟩⟩
    · intro x hx
      exact (notSpaceAt_iff x).mpr ⟨hws x (by simp [hx]), fun e => na (e ▸ hx)⟩
    · intro x hx
      exact (notSpaceAt_iff x).mpr ⟨hws x (by simp [hx]), fun e => nb (e ▸ hx)⟩
    · intro x hx
      exact (notSpaceAt_iff x).mpr ⟨hws x (by simp [hx]), fun e => nc (e ▸ hx)⟩

/-! ## C15: the range of an age -/

/-- C15. The validator `isValidAge` accepts exactly the integers from 1 to 149: it rejects 0,
150, negative integers, numbers that are not integers and values that are not numbers, and
accepts 1 and 149. -/
theorem isValidAge_iff_range :
    (∀ v : JVal, isValidAge v = true ↔ ∃ n : ℤ, v = JVal.num (n : ℚ) ∧ 1 ≤ n ∧ n ≤ 149) ∧
    isValidAge (JVal.num 0) = false ∧ isValidAge (JVal.num 150) = false ∧
    isValidAge (JVal.num (-3)) = false ∧ isValidAge (JVal.num (3 / 2)) = false ∧
    isValidAge (JVal.str "30") = false ∧ isValidAge JVal.null = false ∧
    isValidAge (JVal.bool true) = false ∧ isValidAge JVal.undefined = false ∧
    isValidAge (JVal.num 1) = true ∧ isValidAge (JVal.num 149) = true := by
  have key : ∀ v : JVal, isValidAge v = true ↔
      ∃ n : ℤ, v = JVal.num (n : ℚ) ∧ 1 ≤ n ∧ n ≤ 149 := ?_
  · refine ⟨key, by decide, by decide, by decide, ?_, rfl, rfl, rfl, rfl,
      by decide, by decide⟩
    cases h : isValidAge (JVal.num (3 / 2))
    · rfl
    · exfalso
      obtain ⟨n, hn, _, _⟩ := (key _).mp h
      have hq : (3 : ℚ) / 2 = (n : ℚ) := JVal.num.inj hn
      have h2 : ((3 : ℤ) : ℚ) = ((2 * n : ℤ) : ℚ) := by
        push_cast
        linarith
      have h3 : (3 : ℤ) = 2 * n := by exact_mod_cast h2
      omega
  intro v
  cases v with
  | num q =>
    simp only [isValidAge, Bool.and_eq_true, decide_eq_true_eq, JVal.num.injEq]
    constructor
    · rintro ⟨⟨hi, h0⟩, h150⟩
      have hden : q.den = 1 := by
        simpa [Rat.isInt] using hi
      have hq : ((q.num : ℤ) : ℚ) = q := (Rat.den_eq_one_iff q).mp hden
      refine ⟨q.num, hq.symm, ?_, ?_⟩
      · have : (0 : ℚ) < (q.num : ℚ) := by rw [hq]; exact h0
        have : 0 < q.num := by exact_mod_cast this
        omega
      · have : (q.num : ℚ) < 150 := by rw [hq]; exact h150
        have : q.num < 150 := by exact_mod_cast this
        omega
    · rintro ⟨n, hq, h1, h149⟩
      subst hq
      refine ⟨⟨?_, ?_⟩, ?_⟩
      · simp [Rat.isInt]
      · have : (0 : ℤ) < n := by omega
        exact_mod_cast this
      · have : n < (150 : ℤ) := by omega
        exact_mod_cast this
  | undefined => simp [isValidAge]
  | null => simp [isValidAge]
  | bool b => simp [isValidAge]
  | str s => simp [isValidAge]
  | arr xs => simp [isValidAge]
  | obj fs => simp [isValidAge]

/-! ## C16: deletion -/

theorem mapGet_eq_none_of_not_mem (users : Store) (id : String)
    (h : id ∉ users.map Prod.fst) : mapGet users id = none := by
  induction users with
  | nil => rfl
  | cons q rest ih =>
    obtain ⟨k, v⟩ := q
    simp only [List.map_cons, List.mem_cons, not_or] at h
    have hk : ¬ k = id := fun e => h.1 e.symm
    simp only [mapGet, hk, if_false]
    exact ih h.2

theorem mapGet_mapDelete_same (users : Store) (id : String)
    (hk : (users.map Prod.fst).Nodup) : mapGet (mapDelete users id) id = none := by
  induction users with
  | nil => rfl
  | cons q rest ih =>
    obtain ⟨k, v⟩ := q
    simp only [List.map_cons, List.nodup_cons] at hk
    by_cases h : k = id
    · simp only [mapDelete, h, if_true]
      exact mapGet_eq_none_of_not_mem rest id (h ▸ hk.1)
    · simp only [mapDelete, h, if_false, mapGet]
      exact ih hk.2

theorem mapGet_mapDelete_other (users : Store) (id k : String) (hk : k ≠ id) :
    mapGet (mapDelete users id) k = mapGet users k := by
  induction users with
  | nil => rfl
  | cons q rest ih =>
    obtain ⟨k', v⟩ := q
    by_cases h : k' = id
    · have h1 : ¬ k' = k := fun e => hk (e ▸ h)
      simp only [mapDelete, h, if_true, mapGet]
      rw [h] at h1
      simp only [h1, if_false]
    · simp only [mapDelete, h, if_false, mapGet, ih]

theorem keys_mapWrite (users : Store) (id : String) (new : User) :
    (mapWrite users id new).map Prod.fst = users.map Prod.fst := by
  induction users with
  | nil => rfl
  | cons q rest ih =>
    obtain ⟨k, v⟩ := q
    by_cases h : k = id
    · simp [mapWrite, h]
    · simp [mapWrite, h, ih]

theorem keys_mapSet (users : Store) (id : String) (new : User)
    (hk : (users.map Prod.fst).Nodup) : ((mapSet users id new).map Prod.fst).Nodup := by
  induction users with
  | nil => simp [mapSet]
  | cons q rest ih =>
    obtain ⟨k, v⟩ := q
    simp only [List.map_cons, List.nodup_cons] at hk
    by_cases h : k = id
    · simp only [mapSet, h, if_true, List.map_cons, List.nodup_cons]
      exact ⟨h ▸ hk.1, hk.2⟩
    · simp only [mapSet, h, if_false, List.map_cons, List.nodup_cons]
      refine ⟨?_, ih hk.2⟩
      intro hm
      rw [List.mem_map] at hm
      obtain ⟨p, hp, hpk⟩ := hm
      rcases mem_mapSet rest id new p hp with hin | heq
      · exact hk.1 (List.mem_map.mpr ⟨p, hin, hpk⟩)
      · rw [heq] at hpk
        exact h hpk.symm

/-- One request keeps the keys of the map pairwise different. -/
theorem keys_step (fmt : NumberFormat) (cm : CaseMap) (users : Store) (hp : (users.map Prod.fst).Nodup) :
    (∀ body userId t1 t2, ((postUsers fmt cm users body userId t1 t2).2.map Prod.fst).Nodup) ∧
    (∀ id body now, ((putUser fmt cm users id body now).2.map Prod.fst).Nodup) ∧
    (∀ id updates now, ((patchUser fmt cm users id updates now).2.map Prod.fst).Nodup) ∧
    (∀ id, ((deleteUser users id).2.map Prod.fst).Nodup) := by
  refine ⟨?_, ?_, ?_, ?_⟩
  · intro body userId t1 t2
    rcases postUsers_spec fmt cm users body userId t1 t2 with
      ⟨_, h⟩ | ⟨n, e, _, _, _, _, _, _, h⟩
    · rw [h]; exact hp
    · rw [h]; exact keys_mapSet users userId _ hp
  · intro id body now
    rcases putUser_spec fmt cm users id body now with ⟨_, h⟩ | ⟨old, new, _, _, _, h⟩
    · rw [h]; exact hp
    · rw [h, keys_mapWrite]; exact hp
  · intro id updates now
    rcases patchUser_spec fmt cm users id updates now with
      ⟨_, h | ⟨old, n, _, _, _, h⟩⟩ | ⟨old, new, _, _, _, h⟩
    · rw [h]; exact hp
    · rw [h, keys_mapWrite]; exact hp
    · rw [h, keys_mapWrite]; exact hp
  · intro id
    rcases deleteUser_spec users id with h | h
    · rw [h]; exact hp
    · rw [h]
      exact hp.sublist ((mapDelete_sublist users id).map Prod.fst)

/-- The keys of a reachable map are pairwise different, as those of a `Map` are. -/
theorem keys_nodup_of_reachable (fmt : NumberFormat) (cm : CaseMap) (users : Store)
    (h : Reachable fmt cm users) : (users.map Prod.fst).Nodup := by
  induction h with
  | init => exact List.nodup_nil
  | post _ body userId t1 t2 ih => exact (keys_step fmt cm _ ih).1 body userId t1 t2
  | put _ id body now ih => exact (keys_step fmt cm _ ih).2.1 id body now
  | patch _ id updates now ih => exact (keys_step fmt cm _ ih).2.2.1 id updates now
  | delete _ id ih => exact (keys_step fmt cm _ ih).2.2.2 id

/-- C16. In a map with pairwise different keys, `DELETE` on the well-formed id of a stored
record answers 200 and removes that record and no other: afterwards the id has no record and
every other key holds what it held, `GET` on the id answers 404, and a second `DELETE` on the
id answers 404 and leaves the map as it is. -/
theorem deletion_finality (users : Store) (id : String) (u : User)
    (hk : (users.map Prod.fst).Nodup) (hid : rxTest uuidRegex id = true)
    (hget : mapGet users id = some u) :
    (deleteUser users id).1.status = 200 ∧
    mapGet (deleteUser users id).2 id = none ∧
    (∀ k, k ≠ id → mapGet (deleteUser users id).2 k = mapGet users k) ∧
    (getUser (deleteUser users id).2 id).1.status = 404 ∧
    (deleteUser (deleteUser users id).2 id).1.status = 404 ∧
    (deleteUser (deleteUser users id).2 id).2 = (deleteUser users id).2 := by
  have h1 : deleteUser users id =
      ({ status := 200, success := true, text := "User deleted successfully", data := none },
       mapDelete users id) := by
    simp [deleteUser, hid, mapHas, hget]
  have h2 := mapGet_mapDelete_same users id hk
  rw [h1]
  refine ⟨rfl, h2, fun k hkne => mapGet_mapDelete_other users id k hkne, ?_, ?_, ?_⟩
  · simp [getUser, hid, h2, notFound]
  · simp [deleteUser, hid, mapHas, h2, notFound]
  · simp [deleteUser, hid, mapHas, h2]

/-- C16, at the deletion of Alice from the map holding Alice and Bob. -/
theorem deletion_finality_witness :
    (deleteUser sampleStore idA).1.status = 200 ∧
    mapGet (deleteUser sampleStore idA).2 idA = none ∧
    (∀ k, k ≠ idA → mapGet (deleteUser sampleStore idA).2 k = mapGet sampleStore k) ∧
    (getUser (deleteUser sampleStore idA).2 idA).1.status = 404 ∧
    (deleteUser (deleteUser sampleStore idA).2 idA).1.status = 404 ∧
    (deleteUser (deleteUser sampleStore idA).2 idA).2 = (deleteUser sampleStore idA).2 :=
  deletion_finality sampleStore idA aliceRecord (by decide) (by decide) rfl

/-! ## C17: create, then get -/

theorem mapGet_mapSet_same (users : Store) (id : String) (u : User) :
    mapGet (mapSet users id u) id = some u := by
  induction users with
  | nil => simp [mapSet, mapGet]
  | cons q rest ih =>
    obtain ⟨k, v⟩ := q
    by_cases h : k = id
    · simp [mapSet, mapGet, h]
    · simp [mapSet, mapGet, h, ih]

/-- C17. When `POST /users` answers 201 with the record `r` under a well-formed generated id,
`GET /users/:id` on that id answers 200 with a record equal to `r`; `GET` never changes the
map, so that a second `GET` gives the same answer. -/
theorem create_get_round_trip (fmt : NumberFormat) (cm : CaseMap) (users : Store)
    (body : List (String × JVal)) (userId : String) (t1 t2 : Nat)
    (hid : rxTest uuidRegex userId = true)
    (hs : (postUsers fmt cm users body userId t1 t2).1.status = 201) :
    (∃ r, (postUsers fmt cm users body userId t1 t2).1.data = some r ∧ r.id = userId ∧
      getUser (postUsers fmt cm users body userId t1 t2).2 r.id =
        ({ status := 200, success := true, text := "User retrieved successfully",
           data := some r }, (postUsers fmt cm users body userId t1 t2).2) ∧
      getUser (getUser (postUsers fmt cm users body userId t1 t2).2 r.id).2 r.id =
        getUser (postUsers fmt cm users body userId t1 t2).2 r.id) ∧
    (∀ (store : Store) (id : String), (getUser store id).2 = store) := by
  constructor
  · rcases postUsers_spec fmt cm users body userId t1 t2 with
      ⟨hne, _⟩ | ⟨n, e, _, _, _, _, _, _, h⟩
    · exact absurd hs hne
    · rw [h]
      refine ⟨_, rfl, rfl, ?_, ?_⟩ <;>
        simp [getUser, hid, mapGet_mapSet_same]
  · intro store id
    unfold getUser
    split
    · rfl
    · split <;> rfl

/-- C17, at the `POST` of Alice on the empty map. -/
theorem create_get_round_trip_witness :
    (∃ r, (postUsers plainFormat asciiCase [] aliceBody idA 1 1).1.data = some r ∧ r.id = idA ∧
      getUser (postUsers plainFormat asciiCase [] aliceBody idA 1 1).2 r.id =
        ({ status := 200, success := true, text := "User retrieved successfully",
           data := some r }, (postUsers plainFormat asciiCase [] aliceBody idA 1 1).2) ∧
      getUser (getUser (postUsers plainFormat asciiCase [] aliceBody idA 1 1).2 r.id).2 r.id =
        getUser (postUsers plainFormat asciiCase [] aliceBody idA 1 1).2 r.id) ∧
    (∀ (store : Store) (id : String), (getUser store id).2 = store) :=
  create_get_round_trip plainFormat asciiCase [] aliceBody idA 1 1 (by decide) (by decide)

/-! ## C18: re-submitting stored values -/

theorem validUser_of_reachable (fmt : NumberFormat) (cm : CaseMap) (users : Store)
    (h : Reachable fmt cm users) : ∀ p ∈ users, ValidUser fmt p.2 := by
  induction h with
  | init => intro p hpm; cases hpm
  | post _ body userId t1 t2 ih => exact (valid_step fmt cm _ ih).1 body userId t1 t2
  | put _ id body now ih => exact (valid_step fmt cm _ ih).2.1 id body now
  | patch _ id updates now ih => exact (valid_step fmt cm _ ih).2.2.1 id updates now
  | delete _ id ih => exact (valid_step fmt cm _ ih).2.2.2 id

theorem FieldsUpdated.normalized {cm : CaseMap} {users : Store} {body : List (String × JVal)}
    {old new : User} {now : Nat} (h : FieldsUpdated cm users body old new now)
    (hv : trimStr old.name = old.name ∧ cm.lower old.email = old.email) :
    trimStr new.name = new.name ∧ cm.lower new.email = new.email := by
  obtain ⟨_, _, _, hn, he, _⟩ := h
  constructor
  · rcases hn with ⟨_, hn⟩ | ⟨n, _, _, hn⟩
    · rw [hn]; exact hv.1
    · rw [hn, trimStr_idem]
  · rcases he with ⟨_, he⟩ | ⟨e, _, _, he, _⟩
    · rw [he]; exact hv.2
    · rw [he, cm.idem]

/-- One request keeps every stored name trimmed and every stored email in lower case. -/
theorem normalized_step (fmt : NumberFormat) (cm : CaseMap) (users : Store)
    (hp : ∀ p ∈ users, trimStr p.2.name = p.2.name ∧ cm.lower p.2.email = p.2.email) :
    (∀ body userId t1 t2, ∀ p ∈ (postUsers fmt cm users body userId t1 t2).2,
      trimStr p.2.name = p.2.name ∧ cm.lower p.2.email = p.2.email) ∧
    (∀ id body now, ∀ p ∈ (putUser fmt cm users id body now).2,
      trimStr p.2.name = p.2.name ∧ cm.lower p.2.email = p.2.email) ∧
    (∀ id updates now, ∀ p ∈ (patchUser fmt cm users id updates now).2,
      trimStr p.2.name = p.2.name ∧ cm.lower p.2.email = p.2.email) ∧
    (∀ id, ∀ p ∈ (deleteUser users id).2,
      trimStr p.2.name = p.2.name ∧ cm.lower p.2.email = p.2.email) := by
  refine ⟨?_, ?_, ?_, ?_⟩
  · intro body userId t1 t2 p hpm
    rcases postUsers_spec fmt cm users body userId t1 t2 with
      ⟨_, h⟩ | ⟨n, e, _, _, _, _, _, _, h⟩
    · rw [h] at hpm; exact hp p hpm
    · rw [h] at hpm
      rcases mem_mapSet users userId _ p hpm with hin | heq
      · exact hp p hin
      · rw [heq]
        exact ⟨trimStr_idem n, cm.idem e⟩
  · intro id body now p hpm
    rcases putUser_spec fmt cm users id body now with ⟨_, h⟩ | ⟨old, new, _, hget, hf, h⟩
    · rw [h] at hpm; exact hp p hpm
    · rw [h] at hpm
      rcases mem_mapWrite users id new p hpm with hin | heq
      · exact hp p hin
      · rw [heq]
        exact hf.normalized (hp _ (mapGet_mem users id old hget))
  · intro id updates now p hpm
    rcases patchUser_spec fmt cm users id updates now with
      ⟨_, h | ⟨old, n, hget, _, _, h⟩⟩ | ⟨old, new, _, hget, hf, h⟩
    · rw [h] at hpm; exact hp p hpm
    · rw [h] at hpm
      rcases mem_mapWrite users id _ p hpm with hin | heq
      · exact hp p hin
      · rw [heq]
        exact ⟨trimStr_idem n, (hp (id, old) (mapGet_mem users id old hget)).2⟩
    · rw [h] at hpm
      rcases mem_mapWrite users id new p hpm with hin | heq
      · exact hp p hin
      · rw [heq]
        exact hf.normalized (hp _ (mapGet_mem users id old hget))
  · intro id p hpm
    rcases deleteUser_spec users id with h | h
    · rw [h] at hpm; exact hp p hpm
    · rw [h] at hpm
      exact hp p ((mapDelete_sublist users id).subset hpm)

theorem normalized_of_reachable (fmt : NumberFormat) (cm : CaseMap) (users : Store)
    (h : Reachable fmt cm users) :
    ∀ p ∈ users, trimStr p.2.name = p.2.name ∧ cm.lower p.2.email = p.2.email := by
  induction h with
  | init => intro p hpm; cases hpm
  | post _ body userId t1 t2 ih => exact (normalized_step fmt cm _ ih).1 body userId t1 t2
  | put _ id body now ih => exact (normalized_step fmt cm _ ih).2.1 id body now
  | patch _ id updates now ih => exact (normalized_step fmt cm _ ih).2.2.1 id updates now
  | delete _ id ih => exact (normalized_step fmt cm _ ih).2.2.2 id

theorem validateUser_update_ok (fmt : NumberFormat) (user : List (String × JVal))
    (hn : isUndefined (getProp user "name") = true ∨ isValidName (getProp user "name") = true)
    (he : isUndefined (getProp user "email") = true ∨
      isValidEmail fmt (getProp user "email") = Except.ok true)
    (ha : isUndefined (getProp user "age") = true ∨ isValidAge (getProp user "age") = true) :
    validateUser fmt user true = Except.ok { valid := true, error := none } := by
  unfold validateUser
  rcases hn with hn | hn <;> rcases he with he | he <;> rcases ha with ha | ha <;>
    simp [hn, he, ha]

/-- C18. For a record stored under a well-formed id in a reachable map, a `PUT` or a `PATCH` on
that id whose body carries the stored name and the stored email (and no age, or the stored age)
answers 200 and leaves the record as it was but for `updatedAt`: trimming the stored name and
lower-casing the stored email change nothing. -/
theorem resubmit_stored_is_noop (fmt : NumberFormat) (cm : CaseMap) (users : Store) (id : String) (u : User)
    (body : List (String × JVal)) (now : Nat)
    (hr : Reachable fmt cm users) (hid : rxTest uuidRegex id = true)
    (hget : mapGet users id = some u)
    (hname : getProp body "name" = JVal.str u.name)
    (hemail : getProp body "email" = JVal.str u.email)
    (hage : getProp body "age" = JVal.undefined ∨ getProp body "age" = u.age) :
    trimStr u.name = u.name ∧ cm.lower u.email = u.email ∧
    putUser fmt cm users id body now =
      (userUpdated { u with updatedAt := now }, mapWrite users id { u with updatedAt := now }) ∧
    patchUser fmt cm users id body now =
      (userUpdated { u with updatedAt := now },
        mapWrite users id { u with updatedAt := now }) := by
  have hmem := mapGet_mem users id u hget
  obtain ⟨v1, v2, v3⟩ := validUser_of_reachable fmt cm users hr _ hmem
  obtain ⟨n1, n2⟩ := normalized_of_reachable fmt cm users hr _ hmem
  simp only at v1 v2 v3 n1 n2
  have hre : rxTest emailRegex u.email = true := by
    rw [isValidEmail_str] at v2
    simpa using v2
  have htn := truthy_of_isValidName u.name v1
  have hte := truthy_of_email u.email hre
  obtain ⟨hta, hua⟩ := truthy_of_isValidAge u.age v3
  have hval : validateUser fmt body true = Except.ok { valid := true, error := none } := by
    apply validateUser_update_ok
    · right; rw [hname]; exact v1
    · right; rw [hemail]; exact v2
    · rcases hage with h | h
      · left; rw [h]; rfl
      · right; rw [h]; exact v3
  refine ⟨n1, n2, ?_, ?_⟩
  · unfold putUser
    simp only [validateUser_triple, hval, hid, hget]
    rcases hage with h | h
    · simp [hname, hemail, h, htn, hte, truthy_undefined, jsTrim, jsToLowerCase, Except.map,
        n1, n2]
    · simp [hname, hemail, h, htn, hte, hta, jsTrim, jsToLowerCase, Except.map, n1, n2]
  · unfold patchUser
    simp only [hval, hid, hget]
    rcases hage with h | h
    · simp [hname, hemail, h, isUndefined_undefined, isUndefined_str, jsTrim, jsToLowerCase,
        Except.map, n1, n2]
    · simp [hname, hemail, h, hua, isUndefined_str, jsTrim, jsToLowerCase, Except.map, n1, n2]

/-- C18, at the record of Alice in the map holding Alice and Bob, re-submitted with its stored
name and email. -/
theorem resubmit_stored_is_noop_witness :
    trimStr aliceRecord.name = aliceRecord.name ∧
    asciiCase.lower aliceRecord.email = aliceRecord.email ∧
    putUser plainFormat asciiCase sampleStore idA
        [("name", JVal.str "Alice"), ("email", JVal.str "alice@x.com")] 7 =
      (userUpdated { aliceRecord with updatedAt := 7 },
        mapWrite sampleStore idA { aliceRecord with updatedAt := 7 }) ∧
    patchUser plainFormat asciiCase sampleStore idA
        [("name", JVal.str "Alice"), ("email", JVal.str "alice@x.com")] 7 =
      (userUpdated { aliceRecord with updatedAt := 7 },
        mapWrite sampleStore idA { aliceRecord with updatedAt := 7 }) :=
  resubmit_stored_is_noop plainFormat asciiCase sampleStore idA aliceRecord
    [("name", JVal.str "Alice"), ("email", JVal.str "alice@x.com")] 7
    sampleStore_reachable (by decide) rfl rfl rfl (Or.inl rfl)

/-! ## C19: timestamps -/

/-- C19. `PATCH` on Alice at clock reading 5 with a new name and the email of Bob is rejected with
400, changes the stored name from `Alice` to `Zed` and leaves `updatedAt` at its old reading 1:
a field has changed without `updatedAt` being rewritten. -/
theorem patch_changes_name_keeps_updatedAt :
    (patchUser plainFormat asciiCase sampleStore idA zedBody 5).1.status = 400 ∧
    (mapGet sampleStore idA).map (fun u => (u.name, u.updatedAt)) = some ("Alice", 1) ∧
    (mapGet (patchUser plainFormat asciiCase sampleStore idA zedBody 5).2 idA).map
      (fun u => (u.name, u.updatedAt)) = some ("Zed", 1) := by
  decide

theorem proj_mapWrite {α : Type} (f : User → α) (users : Store) (id : String)
    (old new : User) (hget : mapGet users id = some old) (hf : f new = f old) :
    (mapWrite users id new).map (fun p => (p.1, f p.2)) =
      users.map (fun p => (p.1, f p.2)) := by
  induction users with
  | nil => rfl
  | cons q rest ih =>
    obtain ⟨k, v⟩ := q
    by_cases hk : k = id
    · simp only [mapGet, hk, if_true, Option.some.injEq] at hget
      simp [mapWrite, hk, hf, hget]
    · simp only [mapGet, hk, if_false] at hget
      simp [mapWrite, hk, ih hget]

/-- What does hold of the timestamps under `PUT` and `PATCH`: `createdAt` is never rewritten,
and a call that does not answer 200 leaves every `updatedAt` as it was. -/
theorem timestamps_under_update (fmt : NumberFormat) (cm : CaseMap) (users : Store) (id : String)
    (body : List (String × JVal)) (now : Nat) :
    (putUser fmt cm users id body now).2.map (fun p => (p.1, p.2.createdAt)) =
      users.map (fun p => (p.1, p.2.createdAt)) ∧
    (patchUser fmt cm users id body now).2.map (fun p => (p.1, p.2.createdAt)) =
      users.map (fun p => (p.1, p.2.createdAt)) ∧
    ((putUser fmt cm users id body now).1.status ≠ 200 →
      (putUser fmt cm users id body now).2.map (fun p => (p.1, p.2.updatedAt)) =
        users.map (fun p => (p.1, p.2.updatedAt))) ∧
    ((patchUser fmt cm users id body now).1.status ≠ 200 →
      (patchUser fmt cm users id body now).2.map (fun p => (p.1, p.2.updatedAt)) =
        users.map (fun p => (p.1, p.2.updatedAt))) := by
  refine ⟨?_, ?_, ?_, ?_⟩
  · rcases putUser_spec fmt cm users id body now with ⟨_, h⟩ | ⟨old, new, _, hget, hf, h⟩
    · rw [h]
    · rw [h]
      exact proj_mapWrite (fun u => u.createdAt) users id old new hget hf.2.1
  · rcases patchUser_spec fmt cm users id body now with
      ⟨_, h | ⟨old, n, hget, _, _, h⟩⟩ | ⟨old, new, _, hget, hf, h⟩
    · rw [h]
    · rw [h]
      exact proj_mapWrite (fun u => u.createdAt) users id old _ hget rfl
    · rw [h]
      exact proj_mapWrite (fun u => u.createdAt) users id old new hget hf.2.1
  · intro hs
    rcases putUser_spec fmt cm users id body now with ⟨_, h⟩ | ⟨old, new, _, _, _, h⟩
    · rw [h]
    · rw [h] at hs
      exact absurd rfl hs
  · intro hs
    rcases patchUser_spec fmt cm users id body now with
      ⟨_, h | ⟨old, n, hget, _, _, h⟩⟩ | ⟨old, new, _, _, _, h⟩
    · rw [h]
    · rw [h]
      exact proj_mapWrite (fun u => u.updatedAt) users id old _ hget rfl
    · rw [h] at hs
      exact absurd rfl hs

/-- With a clock that never goes back, every record of a reachable map has
`createdAt ≤ updatedAt`, and no `updatedAt` is later than the latest clock reading. -/
theorem timestamps_ordered (fmt : NumberFormat) (cm : CaseMap) (users : Store) (last : Nat)
    (h : ReachableAt fmt cm users last) :
    ∀ p ∈ users, p.2.createdAt ≤ p.2.updatedAt ∧ p.2.updatedAt ≤ last := by
  induction h with
  | init => intro p hpm; cases hpm
  | @post users last _ body userId t1 t2 h1 h2 ih =>
    intro p hpm
    rcases postUsers_spec fmt cm users body userId t1 t2 with
      ⟨_, h⟩ | ⟨n, e, _, _, _, _, _, _, h⟩
    · rw [h] at hpm
      exact ⟨(ih p hpm).1, le_trans (ih p hpm).2 (le_trans h1 h2)⟩
    · rw [h] at hpm
      rcases mem_mapSet users userId _ p hpm with hin | heq
      · exact ⟨(ih p hin).1, le_trans (ih p hin).2 (le_trans h1 h2)⟩
      · rw [heq]
        exact ⟨h2, le_refl _⟩
  | @put users last _ id body now h1 ih =>
    intro p hpm
    rcases putUser_spec fmt cm users id body now with ⟨_, h⟩ | ⟨old, new, _, hget, hf, h⟩
    · rw [h] at hpm
      exact ⟨(ih p hpm).1, le_trans (ih p hpm).2 h1⟩
    · rw [h] at hpm
      rcases mem_mapWrite users id new p hpm with hin | heq
      · exact ⟨(ih p hin).1, le_trans (ih p hin).2 h1⟩
      · rw [heq]
        obtain ⟨_, hc, hu, _⟩ := hf
        have hold := ih _ (mapGet_mem users id old hget)
        simp only at hold ⊢
        rw [hc, hu]
        exact ⟨le_trans hold.1 (le_trans hold.2 h1), le_refl _⟩
  | @patch users last _ id updates now h1 ih =>
    intro p hpm
    rcases patchUser_spec fmt cm users id updates now with
      ⟨_, h | ⟨old, n, hget, _, _, h⟩⟩ | ⟨old, new, _, hget, hf, h⟩
    · rw [h] at hpm
      exact ⟨(ih p hpm).1, le_trans (ih p hpm).2 h1⟩
    · rw [h] at hpm
      rcases mem_mapWrite users id _ p hpm with hin | heq
      · exact ⟨(ih p hin).1, le_trans (ih p hin).2 h1⟩
      · rw [heq]
        have hold := ih _ (mapGet_mem users id old hget)
        exact ⟨hold.1, le_trans hold.2 h1⟩
    · rw [h] at hpm
      rcases mem_mapWrite users id new p hpm with hin | heq
      · exact ⟨(ih p hin).1, le_trans (ih p hin).2 h1⟩
      · rw [heq]
        obtain ⟨_, hc, hu, _⟩ := hf
        have hold := ih _ (mapGet_mem users id old hget)
        simp only at hold ⊢
        rw [hc, hu]
        exact ⟨le_trans hold.1 (le_trans hold.2 h1), le_refl _⟩
  | @delete users last _ id ih =>
    intro p hpm
    rcases deleteUser_spec users id with h | h
    · rw [h] at hpm; exact ih p hpm
    · rw [h] at hpm
      exact ih p ((mapDelete_sublist users id).subset hpm)

end UsersCrud
